import Mathlib

/-!
# MDL animation interpreter (`my_main.c`)

A shallow embedding of the two animation passes (`first_pass`, `second_pass`)
and of the per-frame interpreter of `my_main`, followed by the properties
proved about them.

Conventions of the embedding:
* C `double` values are exact rationals (`ℚ`): rounding is not modelled.
* C `int` values are unbounded integers (`Int`).
* C strings are `String`s; a copy into a `char[128]` array keeps the bytes
  that fit.
* Calls into the collaborators (rasterizer, image export, animation
  assembly, standard output) are recorded, in order, as a list of `Event`s.
-/

namespace Mdl

/-! ## Data model -/

/-- Three consecutive `double`s of an operation (`d[0]`, `d[1]`, `d[2]`). -/
abbrev Triple := ℚ × ℚ × ℚ

/-- Modelled from the spec: `struct command` of `parser.h` is not among the
sources. One constructor per opcode, carrying the fields `my_main.c` reads.
Frame counts and frame indices are the values as converted to `int`; a `SYMTAB *`
is the name of the symbol it points to, and `none` is the `NULL` pointer.
`other` stands for every opcode the `switch` statements have no case for. -/
inductive Op where
  | frames (num_frames : Int)
  | basename (p : String)
  | vary (p : String) (start_frame end_frame : Int) (start_val end_val : ℚ)
  | sphere (constants : Option String) (cs : Option String) (d : Triple) (r : ℚ)
  | torus (constants : Option String) (cs : Option String) (d : Triple) (r0 r1 : ℚ)
  | box (constants : Option String) (cs : Option String) (d0 d1 : Triple)
  | line (constants : Option String) (cs0 cs1 : Option String) (p0 p1 : Triple)
  | move (d : Triple) (p : Option String)
  | scale (d : Triple) (p : Option String)
  | rotate (axis : ℚ) (degrees : ℚ) (p : Option String)
  | push
  | pop
  | save (p : String)
  | display
  | other (opcode : Nat)
  deriving DecidableEq

/-- The bytes `strncpy(dst, src, n)` leaves in `dst`: all of `src` when it is
shorter than `n`, its first `n` bytes otherwise. -/
def strncpy (src : String) (n : Nat) : String := ⟨src.data.take n⟩

/-! ## `first_pass` -/

/-- The double quote character that `printf` puts around the default name. -/
def quote : String := String.singleton (Char.ofNat 34)

/-- The variables `first_pass` updates while it scans `op[]`. -/
structure first_pass_state where
  num_frames : Int
  name : String
  found_vary : Bool
  deriving DecidableEq

/-- One iteration of the `for` loop of `first_pass` (the `switch`). -/
def first_pass_scan (s : first_pass_state) : Op → first_pass_state
  | .frames n => { s with num_frames := n }
  | .basename p => { s with name := strncpy p 128 }
  | .vary _ _ _ _ _ => { s with found_vary := true }
  | _ => s

/-- How `first_pass` ends: `exit(status)` is called, or it returns with the
globals `num_frames` and `name` set. `stdout` is what it printed. -/
inductive first_pass_result where
  | exit (stdout : List String) (status : Int)
  | ret (stdout : List String) (num_frames : Int) (name : String)
  deriving DecidableEq

/-- The function `first_pass`: the scan of `op[0 .. lastop-1]` followed by the four
`if` statements. -/
def first_pass (ops : List Op) : first_pass_result :=
  let s := ops.foldl first_pass_scan ⟨0, "", false⟩
  if s.found_vary && s.num_frames == 0 then
    .exit ["Please specify number of frames!\n"] 0
  else
    let defaulted := s.num_frames != 0 && s.name.length == 0
    let name := if defaulted then "image" else s.name
    let out1 := if defaulted then
        ["Basename set to " ++ quote ++ name ++ quote ++ " by default...\n"] else []
    let out2 := if s.num_frames != 0 && !s.found_vary then
        ["WARNING: Generating " ++ toString s.num_frames ++ " identical frames...\n"] else []
    let num_frames := if s.num_frames == 0 then 1 else s.num_frames
    .ret (out1 ++ out2) num_frames name

/-! ## `second_pass` -/

/-- A `struct vary_node` without its `next` pointer: a frame's linked list is
the `List` of its nodes. -/
structure vary_node where
  name : String
  value : ℚ
  deriving DecidableEq

/-- The frame indices `j` visited by `for (j = start; j <= end; j++)`. -/
def frame_range (start_frame end_frame : Int) : List Int :=
  (List.range (end_frame + 1 - start_frame).toNat).map (fun (k : Nat) => start_frame + (k : Int))

/-- The value assigned to `curr->value` (line 152), in exact arithmetic: the
rounding of C `double` is not modelled. -/
def vary_value (start_frame end_frame : Int) (start_val end_val : ℚ) (j : Int) : ℚ :=
  start_val + (end_val - start_val) * ((j - start_frame : Int) : ℚ)
    / ((end_frame - start_frame + 1 : Int) : ℚ)

/-- The body of the inner loop: walk to the end of the list `knobs[j]`, link
a fresh node there and fill it in. `none` when `j` is not an index of the
`num_frames` slots that were allocated (an access outside the array). -/
def add_vary_node (knobs : List (List vary_node)) (j : Int) (node : vary_node) :
    Option (List (List vary_node)) :=
  if 0 ≤ j ∧ j.toNat < knobs.length then
    some (knobs.modify (fun curr => curr ++ [node]) j.toNat)
  else none

/-- One iteration of the outer loop of `second_pass`. -/
def second_pass_op (knobs : List (List vary_node)) : Op → Option (List (List vary_node))
  | .vary p start_frame end_frame start_val end_val =>
    (frame_range start_frame end_frame).foldlM
      (fun k j => add_vary_node k j
        ⟨strncpy p 128, vary_value start_frame end_frame start_val end_val j⟩) knobs
  | _ => some knobs

/-- The function `second_pass`, for the `num_frames` resolved by `first_pass`:
`calloc` gives `num_frames` empty lists, then every operation is visited. -/
def second_pass (ops : List Op) (num_frames : Int) : Option (List (List vary_node)) :=
  ops.foldlM second_pass_op (List.replicate num_frames.toNat [])

/-! ## Matrices, the origin stack and the collaborators -/

/-- A 4×4 homogeneous transform. -/
abbrev matrix4 := Matrix (Fin 4) (Fin 4) ℚ

/-- One column of a point matrix: `x`, `y`, `z`, `w`. -/
abbrev point := Fin 4 → ℚ

/-- The column `(x, y, z, 1)`. -/
def mk_point (x y z : ℚ) : point := ![x, y, z, 1]

/-- Modelled from the spec: `matrix_mult` of `matrix.c` is not among the sources;
`matrix_mult(a, b)` stores the product a×b in `b` (here `b` is a 4×4 transform). -/
def matrix_mult (a b : matrix4) : matrix4 := a * b

/-- Modelled from the spec: `matrix_mult(a, b)` of `matrix.c`, not among the
sources, for a point matrix `b`: every column of `b` becomes a×column. -/
def matrix_mult_points (a : matrix4) (b : List point) : List point :=
  b.map (fun p => Matrix.mulVec a p)

/-- Modelled from the spec: `make_translate` of `matrix.c` is not among the
sources; the pure translation by `(x, y, z)`. -/
def make_translate (x y z : ℚ) : matrix4 :=
  !![1, 0, 0, x; 0, 1, 0, y; 0, 0, 1, z; 0, 0, 0, 1]

/-- Modelled from the spec: `make_scale` of `matrix.c` is not among the sources;
the scaling by `(x, y, z)`. -/
def make_scale (x y z : ℚ) : matrix4 :=
  !![x, 0, 0, 0; 0, y, 0, 0; 0, 0, z, 0; 0, 0, 0, 1]

/-- Modelled from the spec: `new_stack` of `stack.c` is not among the sources; a
stack holding a single identity entry. The head of the list is the top. -/
def new_stack : List matrix4 := [1]

/-- Modelled from the spec: `peek` of `stack.c` is not among the sources; the
current top transform. -/
def peek (systems : List matrix4) : matrix4 := systems.headD 1

/-- Modelled from the spec: `push` of `stack.c` is not among the sources;
duplicate the current top transform and push it. -/
def push : List matrix4 → List matrix4
  | [] => []
  | top :: rest => top :: top :: rest

/-- Modelled from the spec: `pop` of `stack.c` is not among the sources; remove
the current top transform, never reducing the stack below one entry (a `pop`
of the last entry is a no-op: `my_main` ignores whatever `pop` reports). -/
def pop : List matrix4 → List matrix4
  | _ :: next :: rest => next :: rest
  | systems => systems

/-- The call `copy_matrix(tmp, peek(systems))`: the entries of `tmp` overwrite
the top of the stack. -/
def copy_to_top (tmp : matrix4) : List matrix4 → List matrix4
  | [] => []
  | _ :: rest => tmp :: rest

/-- A `struct constants`: the red, green and blue reflection coefficients,
each indexed by `AMBIENT_R`, `DIFFUSE_R`, `SPECULAR_R` in this order. -/
structure constants where
  r : Triple
  g : Triple
  b : Triple
  deriving DecidableEq

/-- The local `white` of `my_main` (lines 199-210). -/
def white : constants :=
  ⟨(1/10, 1/2, 1/2), (1/10, 1/2, 1/2), (1/10, 1/2, 1/2)⟩

/-- A `color`: red, green, blue. -/
abbrev color := Int × Int × Int

/-- The local `ambient` of `my_main` (lines 179-182). -/
def ambient : color := (50, 50, 50)

/-- The local `light` of `my_main`: location, then colour (lines 184-191). -/
def light : Triple × Triple := ((1/2, 3/4, 1), (255, 255, 255))

/-- The local `view` of `my_main` (lines 193-196). -/
def view : Triple := (0, 0, 1)

/-- The local `g` of `my_main`, the colour of lines (lines 216-219). -/
def g : color := (255, 255, 255)

/-- The local `step_3d` of `my_main`. -/
def step_3d : ℚ := 100

/-- The symbol table as `my_main` uses it: `value n` is
`lookup_symbol(n)->s.value` and `c n` is `*lookup_symbol(n)->s.c`. The table is
total on names: an operation holds a pointer to its own entry of the table, so
a lookup under the name of that entry finds an entry. -/
structure symtab where
  value : String → ℚ
  c : String → constants

/-- The assignment `lookup_symbol(n)->s.value = v`. -/
def set_value (st : symtab) (n : String) (v : ℚ) : symtab :=
  { st with value := Function.update st.value n v }

/-- What is taken as given from `matrix.c`, `draw.c` and `math.h`: the constant
`M_PI`, the three rotation builders, and the points that `add_sphere`,
`add_torus` and `add_box` append to the matrix they are handed. -/
structure Extern where
  M_PI : ℚ
  make_rotX : ℚ → matrix4
  make_rotY : ℚ → matrix4
  make_rotZ : ℚ → matrix4
  sphere_points : ℚ → ℚ → ℚ → ℚ → ℚ → List point
  torus_points : ℚ → ℚ → ℚ → ℚ → ℚ → ℚ → List point
  box_points : ℚ → ℚ → ℚ → ℚ → ℚ → ℚ → List point

/-- A call into a collaborator, with the arguments that are not the screen or
the z-buffer. -/
inductive Event where
  | printf (s : String)
  | clear_screen
  | clear_zbuffer
  | draw_polygons (polygons : List point) (view : Triple) (light : Triple × Triple)
      (ambient : color) (reflect : constants)
  | draw_lines (points : List point) (c : color)
  | save_extension (file : String)
  | display
  | make_animation (name : String)

/-! ## The per-frame interpreter of `my_main` -/

/-- The locals of `my_main` that the operation loop reads and writes:
the origin stack, the columns `0 .. lastcol-1` of `tmp`, the pointer
`reflect`, and the calls made so far. -/
structure frame_state where
  systems : List matrix4
  tmp : List point
  reflect : constants
  events : List Event

/-- Modelled from the spec: `struct command` of `parser.h` is not among the
sources. The read `op[i].op.sphere.constants` of the union: `sphere`, `torus` and
`box` each start with their `constants` pointer, so on any of the three the
read yields that operation's own pointer. -/
def Op.sphere_constants : Op → Option String
  | .sphere constants _ _ _ => constants
  | .torus constants _ _ _ _ => constants
  | .box constants _ _ _ => constants
  | _ => none

/-- The statements `if (p != NULL) xval *= lookup_symbol(p->name)->s.value;` of
MOVE, SCALE and ROTATE, for one component. -/
def knob_scaled (st : symtab) (p : Option String) (xval : ℚ) : ℚ :=
  match p with
  | some n => xval * st.value n
  | none => xval

/-- The tail shared by the MOVE, SCALE and ROTATE cases, once `tmp` points to
the new transform: `matrix_mult(peek(systems), tmp)`,
`copy_matrix(tmp, peek(systems))`, `tmp->lastcol = 0`. -/
def apply_transform (s : frame_state) (tmp : matrix4) : frame_state :=
  let tmp := matrix_mult (peek s.systems) tmp
  { s with systems := copy_to_top tmp s.systems, tmp := [] }

/-- The tail shared by the SPHERE, TORUS and BOX cases, once the points are in
`tmp`: `matrix_mult`, `draw_polygons`, `tmp->lastcol = 0`, `reflect = &white`. -/
def draw_solid (s : frame_state) (tmp : List point) (reflect : constants) : frame_state :=
  let tmp := matrix_mult_points (peek s.systems) tmp
  { s with tmp := [], reflect := white,
           events := s.events ++ [.draw_polygons tmp view light ambient reflect] }

/-- The body of the operation loop of `my_main`: the `switch` on `op[i].opcode`
(lines 237-412). -/
def exec_op (ext : Extern) (st : symtab) (s : frame_state) (o : Op) : frame_state :=
  match o with
  | .frames _ => s
  | .vary _ _ _ _ _ => s
  | .basename _ => s
  | .sphere constants _ d r =>
    let reflect := match constants with
      | some n => st.c n
      | none => s.reflect
    draw_solid s (s.tmp ++ ext.sphere_points d.1 d.2.1 d.2.2 r step_3d) reflect
  | .torus constants _ d r0 r1 =>
    let reflect := match constants with
      | some _ => (match o.sphere_constants with
        | some n => st.c n
        | none => s.reflect)
      | none => s.reflect
    draw_solid s (s.tmp ++ ext.torus_points d.1 d.2.1 d.2.2 r0 r1 step_3d) reflect
  | .box constants _ d0 d1 =>
    let reflect := match constants with
      | some _ => (match o.sphere_constants with
        | some n => st.c n
        | none => s.reflect)
      | none => s.reflect
    draw_solid s (s.tmp ++ ext.box_points d0.1 d0.2.1 d0.2.2 d1.1 d1.2.1 d1.2.2) reflect
  | .line _ _ _ p0 p1 =>
    let tmp := s.tmp ++ [mk_point p0.1 p0.2.1 p0.2.2, mk_point p1.1 p1.2.1 p1.2.2]
    let tmp := matrix_mult_points (peek s.systems) tmp
    { s with tmp := [], events := s.events ++ [.draw_lines tmp g] }
  | .move d p =>
    let xval := knob_scaled st p d.1
    let yval := knob_scaled st p d.2.1
    let zval := knob_scaled st p d.2.2
    apply_transform s (make_translate xval yval zval)
  | .scale d p =>
    let xval := knob_scaled st p d.1
    let yval := knob_scaled st p d.2.1
    let zval := knob_scaled st p d.2.2
    apply_transform s (make_scale xval yval zval)
  | .rotate axis degrees p =>
    let theta := knob_scaled st p (degrees * (ext.M_PI / 180))
    apply_transform s
      (if axis = 0 then ext.make_rotX theta
       else if axis = 1 then ext.make_rotY theta
       else ext.make_rotZ theta)
  | .push => { s with systems := push s.systems }
  | .pop => { s with systems := pop s.systems }
  | .save p => { s with events := s.events ++ [.save_extension p] }
  | .display => { s with events := s.events ++ [.display] }
  | .other _ => s

/-- The operation loop `for (i=0;i<lastop;i++)` from a given state. -/
def exec_ops (ext : Extern) (st : symtab) (s : frame_state) (ops : List Op) : frame_state :=
  ops.foldl (exec_op ext st) s

/-- The state at the start of a frame's operation loop: `new_stack()`,
`new_matrix(4, 1000)`, and `reflect` and the calls made so far as they stand. -/
def frame_start (reflect : constants) (events : List Event) : frame_state :=
  ⟨new_stack, [], reflect, events⟩

/-! ## The frame loop of `my_main` -/

/-- The conversion `%.3d` of a frame index: decimal, zero-padded to at least
three digits. -/
def fmt_3d (f : Nat) : String :=
  let digits := (Nat.toDigits 10 f)
  ⟨List.replicate (3 - digits.length) '0' ++ digits⟩

/-- The call `sprintf(frame_name, "anim/%s%.3d.png", name, f)`: `none` when the
text and its terminator do not fit the 128 bytes of `frame_name`. -/
def sprintf_frame_name (name : String) (f : Nat) : Option String :=
  let text := "anim/" ++ name ++ fmt_3d f ++ ".png"
  if text.length < 128 then some text else none

/-- What the frame loop carries from one frame to the next: the symbol table,
`reflect`, and the calls made so far. -/
structure run_state where
  st : symtab
  reflect : constants
  events : List Event

/-- Whether the array `name` of a node holds a terminated string: `strncpy` with
count 128 writes no terminator when the knob name has 128 bytes or more, and
the node then holds 128 name bytes. -/
def vary_node.terminated (vn : vary_node) : Bool := decide (vn.name.length < 128)

/-- The assignments of the loop `while (vn)` over the list `knobs[f]`
(lines 228-232), each under the name the node holds. -/
def set_knobs (st : symtab) (vns : List vary_node) : symtab :=
  vns.foldl (fun st vn => set_value st vn.name vn.value) st

/-- The loop `while (vn)` over the list `knobs[f]` (lines 228-232). `none` when
a node hands `lookup_symbol` a name array without terminator: the key read runs
past the array and is not the name of the knob, and the result of the lookup is
dereferenced unchecked. -/
def apply_knobs (st : symtab) (vns : List vary_node) : Option symtab :=
  if vns.all vary_node.terminated then some (set_knobs st vns) else none

/-- One iteration of the frame loop (lines 223-427). The error carries the
calls made before the fault: the lookup of a knob under a name array without
terminator, or `sprintf` writing past the end of `frame_name`. -/
def run_frame (ext : Extern) (ops : List Op) (num_frames : Int) (name : String)
    (knobs : List (List vary_node)) (rs : run_state) (f : Nat) :
    Except (List Event) run_state :=
  let events := rs.events ++ [.clear_screen, .clear_zbuffer]
  match apply_knobs rs.st (knobs.getD f []) with
  | none => .error events
  | some st =>
    let s := exec_ops ext st (frame_start rs.reflect events) ops
    match sprintf_frame_name name f with
    | none => .error s.events
    | some frame_name =>
      let saved := if num_frames > 1 then
          [Event.save_extension frame_name] ++
            (if f % 5 = 0 then [Event.printf ("Saving frame " ++ toString f ++ "...\n")] else [])
        else []
      .ok ⟨st, s.reflect, s.events ++ saved ++ [.clear_screen, .clear_zbuffer]⟩

/-- How a run of `my_main` ends. -/
inductive Status where
  | returned
  | exited (status : Int)
  | fault
  deriving DecidableEq

/-- A run of `my_main`: the calls it made, in order, and how it ended. -/
structure Run where
  events : List Event
  status : Status

/-- The function `my_main`, on the operations `op[0 .. lastop-1]` and the symbol
table left by the parser. -/
def my_main (ext : Extern) (st : symtab) (ops : List Op) : Run :=
  match first_pass ops with
  | .exit stdout status => ⟨stdout.map .printf, .exited status⟩
  | .ret stdout num_frames name =>
    match second_pass ops num_frames with
    | none => ⟨stdout.map .printf, .fault⟩
    | some knobs =>
      match (List.range num_frames.toNat).foldlM (run_frame ext ops num_frames name knobs)
          ⟨st, white, stdout.map .printf⟩ with
      | .error events => ⟨events, .fault⟩
      | .ok rs =>
        if num_frames > 1 then
          ⟨rs.events ++ [.printf "Generating animation...\n", .make_animation name], .returned⟩
        else ⟨rs.events, .returned⟩

/-! ## Vocabulary of the properties -/

/-- The frame count of a FRAMES operation. -/
def Op.frames_value : Op → Option Int
  | .frames n => some n
  | _ => none

/-- The name of a BASENAME operation. -/
def Op.basename_value : Op → Option String
  | .basename p => some p
  | _ => none

/-- Whether the operation is a VARY. -/
def Op.is_vary : Op → Bool
  | .vary _ _ _ _ _ => true
  | _ => false

/-- The frame count recorded from the FRAMES operations of a sequence: the
value of the last one, and 0 when there is none. -/
def recorded_frames (ops : List Op) : Int :=
  ((ops.filterMap Op.frames_value).getLast?).getD 0

/-- The name recorded from the BASENAME operations of a sequence: the last
one, cut to the 128 bytes of `name`, and the empty string when there is none. -/
def recorded_basename (ops : List Op) : String :=
  (((ops.filterMap Op.basename_value).getLast?).map (fun p => strncpy p 128)).getD ""

/-- A schedule of `N` frames given by its lists: slot `i` holds `f i`. -/
def schedule (N : Nat) (f : Nat → List vary_node) : List (List vary_node) :=
  (List.range N).map f

/-- The entry a VARY operation gives frame `j`, when its range contains `j`. -/
def Op.vary_entry (j : Int) : Op → Option vary_node
  | .vary p start_frame end_frame start_val end_val =>
    if start_frame ≤ j ∧ j ≤ end_frame then
      some ⟨strncpy p 128, vary_value start_frame end_frame start_val end_val j⟩
    else none
  | _ => none

/-- The entries the VARY operations of a sequence give frame `j`, in the order
of the operations. -/
def frame_entries (ops : List Op) (j : Int) : List vary_node :=
  ops.filterMap (Op.vary_entry j)

/-- The frame range of a VARY operation, when not empty, lies inside
`0 .. num_frames-1`. -/
def Op.in_bounds (num_frames : Int) : Op → Prop
  | .vary _ start_frame end_frame _ _ =>
    start_frame ≤ end_frame → 0 ≤ start_frame ∧ end_frame < num_frames
  | _ => True

/-- The bounds condition `Op.in_bounds` can be computed. -/
instance Op.in_bounds_decidable (num_frames : Int) (o : Op) : Decidable (o.in_bounds num_frames) := by
  cases o <;> simp only [Op.in_bounds] <;> infer_instance

/-- Whether the operation is a VARY whose inclusive range contains `j`. -/
def Op.covers (j : Int) : Op → Bool
  | .vary _ start_frame end_frame _ _ => decide (start_frame ≤ j ∧ j ≤ end_frame)
  | _ => false

/-- The knob name of a VARY operation. -/
def Op.knob : Op → String
  | .vary p _ _ _ _ => p
  | _ => ""

/-- A knob name of 129 bytes. -/
def long_knob : String := ⟨List.replicate 129 'a'⟩

/-- The constants the constants pointer of a primitive resolves to. -/
def own_constants (st : symtab) : Option String → constants
  | some n => st.c n
  | none => white

/-- The last entry of a frame's list that carries the name `n`. -/
def last_entry (vns : List vary_node) (n : String) : Option vary_node :=
  (vns.filter (fun e => e.name = n)).getLast?

/-- The symbol table once the schedules of frames `0 .. m-1` have been applied,
one after the other. -/
def knobs_applied (st : symtab) (knobs : List (List vary_node)) (m : Nat) : symtab :=
  (List.range m).foldl (fun st i => set_knobs st (knobs.getD i [])) st

/-- The calls the operation loop makes in one frame, from the fresh stack. -/
def op_calls (ext : Extern) (st : symtab) (ops : List Op) : List Event :=
  (exec_ops ext st (frame_start white []) ops).events

/-- The text `sprintf` builds for frame `f`. -/
def frame_name_text (name : String) (f : Nat) : String :=
  "anim/" ++ name ++ fmt_3d f ++ ".png"

/-- The calls of frame `f` as the frame driver is described: clear the buffers,
run the operations on the table holding the knobs of frames `0 .. f`, export the
frame when there are several frames (with a progress line every fifth frame),
clear the buffers. -/
def frame_calls (ext : Extern) (st : symtab) (ops : List Op) (num_frames : Int)
    (name : String) (knobs : List (List vary_node)) (f : Nat) : List Event :=
  [Event.clear_screen, Event.clear_zbuffer] ++
    op_calls ext (knobs_applied st knobs (f + 1)) ops ++
    (if num_frames > 1 then
      [Event.save_extension (frame_name_text name f)] ++
        (if f % 5 = 0 then [Event.printf ("Saving frame " ++ toString f ++ "...\n")] else [])
     else []) ++
    [Event.clear_screen, Event.clear_zbuffer]

/-- The file name of an image export. -/
def Event.saved_file : Event → Option String
  | .save_extension file => some file
  | _ => none

/-- Whether the call is the animation assembly. -/
def Event.is_make_animation : Event → Bool
  | .make_animation _ => true
  | _ => false

/-- The file name of a SAVE operation. -/
def Op.save_name : Op → Option String
  | .save p => some p
  | _ => none

/-- Collaborators that build nothing, for concrete runs. -/
def sample_extern : Extern :=
  ⟨0, fun _ => 1, fun _ => 1, fun _ => 1, fun _ _ _ _ _ => [], fun _ _ _ _ _ _ => [],
    fun _ _ _ _ _ _ => []⟩

/-- A symbol table with every knob at 0 and every constants record `white`. -/
def sample_symtab : symtab := ⟨fun _ => 0, fun _ => white⟩

/-- Whether the operation is one of PUSH, POP, MOVE, SCALE, ROTATE. -/
def Op.changes_stack : Op → Bool
  | .push => true
  | .pop => true
  | .move _ _ => true
  | .scale _ _ => true
  | .rotate _ _ _ => true
  | _ => false

/-- A basename of 116 bytes. -/
def long_basename : String := ⟨List.replicate 116 'a'⟩

/-! ## Properties of `first_pass` -/

theorem first_pass_scan_foldl (ops : List Op) (s : first_pass_state) :
    ops.foldl first_pass_scan s =
      ⟨((ops.filterMap Op.frames_value).getLast?).getD s.num_frames,
       (((ops.filterMap Op.basename_value).getLast?).map (fun p => strncpy p 128)).getD s.name,
       s.found_vary || ops.any Op.is_vary⟩ := by
  induction ops using List.reverseRecOn with
  | nil => simp
  | append_singleton l a ih =>
    rw [List.foldl_append, ih]
    cases a <;>
      simp [first_pass_scan, Op.frames_value, Op.basename_value, Op.is_vary,
        List.filterMap_append, List.getLast?_append]

theorem first_pass_scan_result (ops : List Op) :
    ops.foldl first_pass_scan ⟨0, "", false⟩ =
      ⟨recorded_frames ops, recorded_basename ops, ops.any Op.is_vary⟩ := by
  rw [first_pass_scan_foldl]
  simp [recorded_frames, recorded_basename]

theorem recorded_frames_of_no_frames (ops : List Op) (h : ∀ n, Op.frames n ∉ ops) :
    recorded_frames ops = 0 := by
  have h0 : ops.filterMap Op.frames_value = [] := by
    rw [List.filterMap_eq_nil_iff]
    intro o ho
    cases o <;> simp [Op.frames_value]
    exact h _ ho
  simp [recorded_frames, h0]

theorem recorded_basename_of_no_basename (ops : List Op) (h : ∀ p, Op.basename p ∉ ops) :
    recorded_basename ops = "" := by
  have h0 : ops.filterMap Op.basename_value = [] := by
    rw [List.filterMap_eq_nil_iff]
    intro o ho
    cases o <;> simp [Op.basename_value]
    exact h _ ho
  simp [recorded_basename, h0]

theorem first_pass_of_fatal (ops : List Op)
    (h : (∃ o ∈ ops, o.is_vary = true) ∧ recorded_frames ops = 0) :
    first_pass ops = .exit ["Please specify number of frames!\n"] 0 := by
  have hv : ops.any Op.is_vary = true := by simpa using h.1
  simp [first_pass, first_pass_scan_result, hv, h.2]

theorem first_pass_of_not_fatal (ops : List Op)
    (h : ¬ ((∃ o ∈ ops, o.is_vary = true) ∧ recorded_frames ops = 0)) :
    ∃ stdout, first_pass ops = .ret stdout
      (if recorded_frames ops = 0 then 1 else recorded_frames ops)
      (if recorded_frames ops ≠ 0 ∧ (recorded_basename ops).length = 0 then "image"
        else recorded_basename ops) := by
  have hv : ¬ (ops.any Op.is_vary = true ∧ recorded_frames ops = 0) := by simpa using h
  simp only [first_pass, first_pass_scan_result]
  rw [if_neg (by simpa using hv)]
  by_cases h0 : recorded_frames ops = 0 <;> by_cases hn : (recorded_basename ops).length = 0 <;>
    simp [h0, hn]

/-- C1: `first_pass` calls `exit` exactly when the sequence has a VARY operation
and the frame count recorded from its FRAMES operations is 0 (so whenever a VARY
is present and no FRAMES is); on every other sequence it returns. When it
exits, `my_main` has made no call but the `printf` of the diagnostic: no frame
is drawn, saved or assembled. -/
theorem first_pass_exit_iff (ext : Extern) (st : symtab) (ops : List Op) :
    ((∃ stdout status, first_pass ops = .exit stdout status) ↔
        ((∃ o ∈ ops, o.is_vary = true) ∧ recorded_frames ops = 0)) ∧
    (¬ ((∃ o ∈ ops, o.is_vary = true) ∧ recorded_frames ops = 0) →
        ∃ stdout num_frames name, first_pass ops = .ret stdout num_frames name) ∧
    ((∃ o ∈ ops, o.is_vary = true) → (∀ n, Op.frames n ∉ ops) →
        ∃ stdout status, first_pass ops = .exit stdout status) ∧
    (∀ stdout status, first_pass ops = .exit stdout status →
        (my_main ext st ops).status = .exited status ∧
        (my_main ext st ops).events = [Event.printf "Please specify number of frames!\n"]) := by
  refine ⟨⟨?_, ?_⟩, ?_, ?_, ?_⟩
  · rintro ⟨stdout, status, he⟩
    by_contra hc
    obtain ⟨out, hr⟩ := first_pass_of_not_fatal ops hc
    rw [hr] at he
    cases he
  · intro h
    exact ⟨_, _, first_pass_of_fatal ops h⟩
  · intro h
    obtain ⟨out, hr⟩ := first_pass_of_not_fatal ops h
    exact ⟨_, _, _, hr⟩
  · intro hv hf
    exact ⟨_, _, first_pass_of_fatal ops ⟨hv, recorded_frames_of_no_frames ops hf⟩⟩
  · intro stdout status he
    by_cases hc : (∃ o ∈ ops, o.is_vary = true) ∧ recorded_frames ops = 0
    · have hx := first_pass_of_fatal ops hc
      rw [hx] at he
      cases he
      simp [my_main, hx]
    · obtain ⟨out, hr⟩ := first_pass_of_not_fatal ops hc
      rw [hr] at he
      cases he

/-- Witness for C1: a script with one VARY and no FRAMES makes `first_pass` exit. -/
theorem first_pass_exit_iff_witness :
    ∃ stdout status, first_pass [Op.vary "k" 0 4 0 10] = .exit stdout status :=
  (first_pass_exit_iff ⟨0, fun _ => 1, fun _ => 1, fun _ => 1, fun _ _ _ _ _ => [],
      fun _ _ _ _ _ _ => [], fun _ _ _ _ _ _ => []⟩ ⟨fun _ => 0, fun _ => white⟩
    [Op.vary "k" 0 4 0 10]).2.2.1 ⟨_, List.mem_singleton.2 rfl, rfl⟩ (by simp)

/-- C2, as stated, fails: with `FRAMES 0` and no BASENAME (and no VARY)
`first_pass` returns and the name stays empty. -/
theorem first_pass_default_basename_counterexample :
    Op.frames 0 ∈ [Op.frames 0] ∧ (∀ p, Op.basename p ∉ [Op.frames 0]) ∧
      first_pass [Op.frames 0] = .ret [] 1 "" ∧ ("" : String) ≠ "image" := by
  refine ⟨by simp, by simp, ?_, by decide⟩
  simp [first_pass, first_pass_scan]

/-- C2, amended: when the recorded frame count (the value of the last FRAMES
operation) is not 0 and the sequence has no BASENAME operation, `first_pass`
returns, with that frame count and with the name "image". -/
theorem first_pass_default_basename (ops : List Op) (hN : recorded_frames ops ≠ 0)
    (hb : ∀ p, Op.basename p ∉ ops) :
    ∃ stdout, first_pass ops = .ret stdout (recorded_frames ops) "image" := by
  obtain ⟨out, hr⟩ := first_pass_of_not_fatal ops (fun h => hN h.2)
  refine ⟨out, ?_⟩
  rw [hr, recorded_basename_of_no_basename ops hb]
  simp [hN]

/-- Witness for C2: `FRAMES 5` followed by a VARY. -/
theorem first_pass_default_basename_witness :
    ∃ stdout, first_pass [Op.frames 5, Op.vary "k" 0 4 0 10] = .ret stdout 5 "image" :=
  first_pass_default_basename [Op.frames 5, Op.vary "k" 0 4 0 10] (by decide) (by simp)

/-- C3, as stated, fails: `FRAMES -2` is returned as the frame count -2, which
is below 1; and `FRAMES 0` is returned as 1, not as the recorded 0. -/
theorem first_pass_num_frames_counterexample :
    first_pass [Op.frames (-2)] = .ret
        ["Basename set to " ++ quote ++ "image" ++ quote ++ " by default...\n",
          "WARNING: Generating " ++ toString (-2 : Int) ++ " identical frames...\n"] (-2) "image" ∧
      ¬ ((1 : Int) ≤ -2) ∧
      first_pass [Op.frames 0, Op.basename "a"] = .ret [] 1 "a" ∧
      recorded_frames [Op.frames 0, Op.basename "a"] = 0 ∧ (1 : Int) ≠ 0 := by
  refine ⟨?_, by decide, ?_, by decide, by decide⟩
  · simp [first_pass, first_pass_scan]
  · simp [first_pass, first_pass_scan]
    rfl

/-- C3, amended: when `first_pass` returns, the resolved `num_frames` is the
value of the last FRAMES operation if that value is not 0, and 1 otherwise (in
particular 1 when there is no FRAMES operation); it is never 0, and it is at
least 1 whenever the last FRAMES value is not negative. -/
theorem first_pass_num_frames (ops : List Op) (stdout : List String) (n : Int) (name : String)
    (h : first_pass ops = .ret stdout n name) :
    n = (if recorded_frames ops = 0 then 1 else recorded_frames ops) ∧
      ((∀ k, Op.frames k ∉ ops) → n = 1) ∧ n ≠ 0 ∧ (0 ≤ recorded_frames ops → 1 ≤ n) := by
  have hc : ¬ ((∃ o ∈ ops, o.is_vary = true) ∧ recorded_frames ops = 0) := by
    intro hc
    rw [first_pass_of_fatal ops hc] at h
    cases h
  obtain ⟨out, hr⟩ := first_pass_of_not_fatal ops hc
  rw [hr] at h
  injection h with _ hn _
  subst hn
  refine ⟨rfl, ?_, ?_, ?_⟩
  · intro hf
    simp [recorded_frames_of_no_frames ops hf]
  · split_ifs with h0
    · decide
    · exact h0
  · intro h0
    split_ifs with h1
    · decide
    · omega

/-- Witness for C3: `FRAMES 5` resolves to 5 frames. -/
theorem first_pass_num_frames_witness :
    (5 : Int) = (if recorded_frames [Op.frames 5] = 0 then 1 else recorded_frames [Op.frames 5]) ∧
      ((∀ k, Op.frames k ∉ [Op.frames 5]) → (5 : Int) = 1) ∧ (5 : Int) ≠ 0 ∧
      (0 ≤ recorded_frames [Op.frames 5] → (1 : Int) ≤ 5) :=
  first_pass_num_frames [Op.frames 5]
    ["Basename set to " ++ quote ++ "image" ++ quote ++ " by default...\n",
      "WARNING: Generating " ++ toString (5 : Int) ++ " identical frames...\n"] 5 "image"
    (by simp [first_pass, first_pass_scan])

/-! ## Properties of `second_pass` -/

theorem schedule_length (N : Nat) (f : Nat → List vary_node) : (schedule N f).length = N := by
  simp [schedule]

theorem schedule_congr (N : Nat) (f h : Nat → List vary_node) (e : ∀ i, i < N → f i = h i) :
    schedule N f = schedule N h := by
  unfold schedule
  apply List.map_congr_left
  intro i hi
  exact e i (List.mem_range.1 hi)

theorem add_vary_node_schedule (N : Nat) (f : Nat → List vary_node) (j : Int) (node : vary_node)
    (h0 : 0 ≤ j) (h1 : j.toNat < N) :
    add_vary_node (schedule N f) j node =
      some (schedule N (fun i => if i = j.toNat then f i ++ [node] else f i)) := by
  unfold add_vary_node
  rw [if_pos ⟨h0, by simpa [schedule] using h1⟩]
  congr 1
  apply List.ext_getElem?
  intro i
  rw [List.getElem?_modify]
  simp only [schedule, List.getElem?_map, List.getElem?_range]
  by_cases hi : i < N
  · simp [List.getElem?_range, hi, eq_comm]
  · have hn : (List.range N)[i]? = none := by
      rw [List.getElem?_eq_none_iff]
      simpa using hi
    simp [hn]

theorem add_vary_node_some (k k2 : List (List vary_node)) (j : Int) (node : vary_node)
    (h : add_vary_node k j node = some k2) : k2.length = k.length ∧ 0 ≤ j ∧ j.toNat < k.length := by
  unfold add_vary_node at h
  split_ifs at h with hb
  cases h
  simp [hb.1, hb.2]

theorem mem_frame_range (sf ef j : Int) : j ∈ frame_range sf ef ↔ sf ≤ j ∧ j ≤ ef := by
  simp only [frame_range, List.mem_map, List.mem_range]
  constructor
  · rintro ⟨k, hk, rfl⟩
    omega
  · intro h
    refine ⟨(j - sf).toNat, ?_, ?_⟩
    · omega
    · omega

theorem vary_loop_schedule (N : Nat) (f : Nat → List vary_node) (mk : Int → vary_node)
    (sf : Int) (m : Nat) (h0 : 0 ≤ sf) (h1 : sf + m ≤ N) :
    ((List.range m).map (fun (k : Nat) => sf + (k : Int))).foldlM
        (fun k j => add_vary_node k j (mk j)) (schedule N f) =
      some (schedule N (fun i => f i ++
        if sf ≤ (i : Int) ∧ (i : Int) < sf + m then [mk i] else [])) := by
  induction m with
  | zero =>
    simp only [List.range_zero, List.map_nil, List.foldlM_nil]
    congr 1
    apply schedule_congr
    intro i _
    have : ¬ (sf ≤ (i : Int) ∧ (i : Int) < sf + ((0 : Nat) : Int)) := by omega
    simp [this]
  | succ m ih =>
    rw [List.range_succ, List.map_append, List.foldlM_append, ih (by omega)]
    have step := add_vary_node_schedule N
      (fun i => f i ++ if sf ≤ (i : Int) ∧ (i : Int) < sf + (m : Int) then [mk i] else [])
      (sf + (m : Int)) (mk (sf + (m : Int))) (by omega) (by omega)
    simp only [List.map_cons, List.map_nil, List.foldlM_cons, List.foldlM_nil,
      Option.bind_eq_bind, Option.some_bind, step, Option.pure_def, Option.bind_some]
    congr 1
    apply schedule_congr
    intro i hi
    by_cases he : i = (sf + (m : Int)).toNat
    · have e1 : ((i : Nat) : Int) = sf + m := by omega
      have c1 : ¬ (sf ≤ (i : Int) ∧ (i : Int) < sf + (m : Int)) := by omega
      have c2 : sf ≤ (i : Int) ∧ (i : Int) < sf + ((m + 1 : Nat) : Int) := by omega
      simp only [he, if_true] at *
      simp [c1, c2, e1]
    · have c : (sf ≤ (i : Int) ∧ (i : Int) < sf + ((m + 1 : Nat) : Int)) ↔
          (sf ≤ (i : Int) ∧ (i : Int) < sf + (m : Int)) := by omega
      simp only [he, if_false, c]

theorem second_pass_op_schedule (n : Int) (f : Nat → List vary_node) (o : Op)
    (hb : o.in_bounds n) :
    second_pass_op (schedule n.toNat f) o =
      some (schedule n.toNat (fun i => f i ++ (o.vary_entry i).toList)) := by
  cases o with
  | vary p sf ef sv ev =>
    simp only [second_pass_op, frame_range]
    by_cases hr : sf ≤ ef
    · obtain ⟨h0, h1⟩ := hb hr
      rw [vary_loop_schedule n.toNat f _ sf _ h0 (by omega)]
      congr 1
      apply schedule_congr
      intro i _
      have c : (sf ≤ (i : Int) ∧ (i : Int) < sf + ((ef + 1 - sf).toNat : Int)) ↔
          (sf ≤ (i : Int) ∧ (i : Int) ≤ ef) := by omega
      simp only [c, Op.vary_entry]
      by_cases hc : sf ≤ (i : Int) ∧ (i : Int) ≤ ef
      · simp [hc]
      · simp [hc]
    · have hz : (ef + 1 - sf).toNat = 0 := by omega
      simp only [hz, List.range_zero, List.map_nil, List.foldlM_nil]
      congr 1
      apply schedule_congr
      intro i _
      have hc : ¬ (sf ≤ (i : Int) ∧ (i : Int) ≤ ef) := by omega
      simp [Op.vary_entry, hc]
  | _ => simp [second_pass_op, Op.vary_entry]

theorem second_pass_foldl_schedule (n : Int) (ops : List Op) :
    ∀ (f : Nat → List vary_node), (∀ o ∈ ops, o.in_bounds n) →
    ops.foldlM second_pass_op (schedule n.toNat f) =
      some (schedule n.toNat (fun i => f i ++ frame_entries ops (i : Int))) := by
  induction ops with
  | nil => intro f _; simp [frame_entries]
  | cons o ops ih =>
    intro f hb
    rw [List.foldlM_cons, second_pass_op_schedule n f o (hb o (List.mem_cons_self _ _))]
    simp only [Option.some_bind, Option.bind_eq_bind]
    rw [ih _ (fun o2 h2 => hb o2 (List.mem_cons_of_mem _ h2))]
    congr 1
    apply schedule_congr
    intro i _
    cases hv : Op.vary_entry (i : Int) o <;> simp [frame_entries, List.filterMap_cons, hv]

theorem vary_loop_some (mk : Int → vary_node) (js : List Int) :
    ∀ k k2 : List (List vary_node),
      js.foldlM (fun k j => add_vary_node k j (mk j)) k = some k2 →
      k2.length = k.length ∧ ∀ j ∈ js, 0 ≤ j ∧ j.toNat < k.length := by
  induction js with
  | nil =>
    intro k k2 h
    simp only [List.foldlM_nil, Option.pure_def, Option.some.injEq] at h
    subst h
    simp
  | cons j js ih =>
    intro k k2 h
    rw [List.foldlM_cons] at h
    cases h1 : add_vary_node k j (mk j) with
    | none => simp [h1] at h
    | some k1 =>
      rw [h1] at h
      simp only [Option.bind_eq_bind, Option.some_bind] at h
      obtain ⟨hl, hj⟩ := add_vary_node_some k k1 j (mk j) h1
      obtain ⟨hl2, hjs⟩ := ih k1 k2 h
      refine ⟨by omega, ?_⟩
      intro j2 hj2
      rcases List.mem_cons.1 hj2 with rfl | hm
      · exact hj
      · have := hjs j2 hm
        omega

theorem second_pass_op_some (n : Int) (k k2 : List (List vary_node)) (o : Op)
    (h : second_pass_op k o = some k2) (hk : k.length = n.toNat) :
    k2.length = k.length ∧ o.in_bounds n := by
  cases o with
  | vary p sf ef sv ev =>
    simp only [second_pass_op] at h
    obtain ⟨hl, hj⟩ := vary_loop_some _ _ k k2 h
    refine ⟨hl, ?_⟩
    intro hr
    have h1 := hj sf ((mem_frame_range sf ef sf).2 ⟨le_refl _, hr⟩)
    have h2 := hj ef ((mem_frame_range sf ef ef).2 ⟨hr, le_refl _⟩)
    omega
  | _ =>
    simp only [second_pass_op, Option.some.injEq] at h
    subst h
    exact ⟨rfl, trivial⟩

theorem second_pass_foldl_some (n : Int) (ops : List Op) :
    ∀ k k2 : List (List vary_node), ops.foldlM second_pass_op k = some k2 →
      k.length = n.toNat → ∀ o ∈ ops, o.in_bounds n := by
  induction ops with
  | nil => intro k k2 _ _ o ho; cases ho
  | cons o ops ih =>
    intro k k2 h hk o2 ho2
    rw [List.foldlM_cons] at h
    cases h1 : second_pass_op k o with
    | none => simp [h1] at h
    | some k1 =>
      rw [h1] at h
      simp only [Option.bind_eq_bind, Option.some_bind] at h
      obtain ⟨hl, hb⟩ := second_pass_op_some n k k1 o h1 hk
      rcases List.mem_cons.1 ho2 with rfl | hm
      · exact hb
      · exact ih k1 k2 h (by omega) o2 hm


theorem second_pass_of_in_bounds (ops : List Op) (n : Int) (hb : ∀ o ∈ ops, o.in_bounds n) :
    second_pass ops n = some (schedule n.toNat (fun i => frame_entries ops (i : Int))) := by
  have h0 : List.replicate n.toNat ([] : List vary_node) = schedule n.toNat (fun _ => []) := by
    simp [schedule]
  rw [second_pass, h0, second_pass_foldl_schedule n ops _ hb]
  simp

theorem second_pass_eq_some_iff (ops : List Op) (n : Int) (knobs : List (List vary_node)) :
    second_pass ops n = some knobs ↔
      (∀ o ∈ ops, o.in_bounds n) ∧
        knobs = schedule n.toNat (fun i => frame_entries ops (i : Int)) := by
  constructor
  · intro h
    have hb : ∀ o ∈ ops, o.in_bounds n :=
      second_pass_foldl_some n ops _ knobs h (by simp)
    rw [second_pass_of_in_bounds ops n hb] at h
    exact ⟨hb, (Option.some.inj h).symm⟩
  · rintro ⟨hb, rfl⟩
    exact second_pass_of_in_bounds ops n hb

theorem schedule_getElem? (N : Nat) (f : Nat → List vary_node) (j : Int)
    (h1 : j.toNat < N) : (schedule N f)[j.toNat]? = some (f j.toNat) := by
  simp [schedule, List.getElem?_range, h1]

theorem strncpy_of_short (p : String) (n : Nat) (h : p.length ≤ n) : strncpy p n = p := by
  unfold strncpy
  have : p.data.take n = p.data := List.take_of_length_le h
  rw [this]

/-- C4: when `second_pass` completes, the entry it stores in frame `j` for a
VARY operation whose range contains `j` (found after the entries of the
operations before it) has the value
`start_val + (end_val - start_val) * (j - start_frame) / (end_frame - start_frame + 1)`,
in exact arithmetic; the single VARY of knob `k` over frames 0..4 from 0 to 10
schedules 0, 2, 4, 6, 8. -/
theorem second_pass_value :
    (∀ (ops pre post : List Op) (n : Int) (knobs : List (List vary_node)) (p : String)
      (sf ef : Int) (sv ev : ℚ) (j : Int),
      second_pass ops n = some knobs → ops = pre ++ Op.vary p sf ef sv ev :: post →
      sf ≤ j → j ≤ ef →
      0 ≤ j ∧ j < n ∧ ∃ entries, knobs[j.toNat]? = some entries ∧
        entries[(frame_entries pre j).length]? = some ⟨strncpy p 128,
          sv + (ev - sv) * ((j : ℚ) - (sf : ℚ)) / ((ef : ℚ) - (sf : ℚ) + 1)⟩) ∧
    second_pass [Op.vary "k" 0 4 0 10] 5 =
      some [[⟨"k", 0⟩], [⟨"k", 2⟩], [⟨"k", 4⟩], [⟨"k", 6⟩], [⟨"k", 8⟩]] := by
  constructor
  · intro ops pre post n knobs p sf ef sv ev j h hops h1 h2
    obtain ⟨hb, rfl⟩ := (second_pass_eq_some_iff ops n knobs).1 h
    have hin : (Op.vary p sf ef sv ev).in_bounds n := hb _ (by rw [hops]; simp)
    obtain ⟨b0, b1⟩ := hin (le_trans h1 h2)
    refine ⟨by omega, by omega, _, schedule_getElem? _ _ j (by omega), ?_⟩
    have hj : ((j.toNat : Nat) : Int) = j := by omega
    rw [hj, hops]
    simp only [frame_entries, List.filterMap_append, List.filterMap_cons, Op.vary_entry, h1, h2,
      and_self, if_true]
    rw [List.getElem?_append_right (le_refl _)]
    simp [vary_value]
  · rw [second_pass_of_in_bounds]
    · have hk : strncpy "k" 128 = "k" := by decide
      simp [schedule, List.range_succ, frame_entries, Op.vary_entry, vary_value, hk]
      norm_num
    · intro o ho
      simp at ho
      subst ho
      intro _
      constructor <;> decide


/-- Witness for C4: frame 2 of the single VARY over frames 0..4 from 0 to 10. -/
theorem second_pass_value_witness :
    (0 : Int) ≤ 2 ∧ (2 : Int) < 5 ∧ ∃ entries,
      ([[⟨"k", 0⟩], [⟨"k", 2⟩], [⟨"k", 4⟩], [⟨"k", 6⟩], [⟨"k", 8⟩]] :
        List (List vary_node))[(2 : Int).toNat]? = some entries ∧
      entries[(frame_entries [] 2).length]? = some ⟨strncpy "k" 128,
        0 + (10 - 0) * (((2 : Int) : ℚ) - ((0 : Int) : ℚ)) / (((4 : Int) : ℚ) - ((0 : Int) : ℚ) + 1)⟩ :=
  second_pass_value.1 [Op.vary "k" 0 4 0 10] [] [] 5 _ "k" 0 4 0 10 2 second_pass_value.2 rfl
    (by decide) (by decide)

theorem frame_entries_names (ops : List Op) (j : Int) :
    (frame_entries ops j).map (fun e => e.name) =
      (ops.filter (Op.covers j)).map (fun o => strncpy o.knob 128) := by
  induction ops with
  | nil => simp [frame_entries]
  | cons o ops ih =>
    simp only [frame_entries] at ih
    cases o with
    | vary p sf ef sv ev =>
      by_cases hc : sf ≤ j ∧ j ≤ ef
      · simp [frame_entries, List.filterMap_cons, List.filter_cons, Op.vary_entry, Op.covers,
          Op.knob, hc, ih]
      · simp [frame_entries, List.filterMap_cons, List.filter_cons, Op.vary_entry, Op.covers,
          hc, ih]
    | _ => simp [frame_entries, List.filterMap_cons, List.filter_cons, Op.vary_entry, Op.covers, ih]

/-- C5, as stated, fails on the name: for a VARY whose knob name has 129 bytes
the entry stored in frame 0 carries the first 128 bytes only, not the knob name. -/
theorem second_pass_frame_lists_counterexample :
    (∀ o ∈ [Op.vary long_knob 0 0 0 1], o.in_bounds 1) ∧
      second_pass [Op.vary long_knob 0 0 0 1] 1 = some [[⟨⟨List.replicate 128 'a'⟩, 0⟩]] ∧
      (⟨List.replicate 128 'a'⟩ : String) ≠ long_knob := by
  have hb : ∀ o ∈ [Op.vary long_knob 0 0 0 1], o.in_bounds 1 := by
    intro o ho
    simp at ho
    subst ho
    intro _
    constructor <;> decide
  refine ⟨hb, ?_, by decide⟩
  rw [second_pass_of_in_bounds _ _ hb]
  simp [schedule, List.range_succ, frame_entries, Op.vary_entry, vary_value]
  decide

/-- C5, amended: when every VARY range lies inside `0 .. num_frames-1`,
`second_pass` completes and the list of frame `j` has exactly one entry per VARY
operation whose range contains `j`, in the order of the operations, carrying the
first 128 bytes of the knob name (the knob name itself when it has at most 128
bytes); entries are appended, so two VARY operations on one knob whose ranges
both contain `j` give two entries, the earlier operation first. -/
theorem second_pass_frame_lists (ops : List Op) (n : Int) (hb : ∀ o ∈ ops, o.in_bounds n) :
    ∃ knobs, second_pass ops n = some knobs ∧ knobs.length = n.toNat ∧
      ∀ j : Int, 0 ≤ j → j < n → ∃ entries, knobs[j.toNat]? = some entries ∧
        entries = frame_entries ops j ∧
        entries.map (fun e => e.name) =
          (ops.filter (Op.covers j)).map (fun o => strncpy o.knob 128) ∧
        ((∀ o ∈ ops, o.knob.length ≤ 128) →
          entries.map (fun e => e.name) = (ops.filter (Op.covers j)).map Op.knob) ∧
        ∀ (pre mid post : List Op) (p : String) (sf1 ef1 sf2 ef2 : Int) (sv1 ev1 sv2 ev2 : ℚ),
          ops = pre ++ Op.vary p sf1 ef1 sv1 ev1 :: mid ++ Op.vary p sf2 ef2 sv2 ev2 :: post →
          sf1 ≤ j → j ≤ ef1 → sf2 ≤ j → j ≤ ef2 →
          entries = frame_entries pre j ++ ⟨strncpy p 128, vary_value sf1 ef1 sv1 ev1 j⟩ ::
            frame_entries mid j ++ ⟨strncpy p 128, vary_value sf2 ef2 sv2 ev2 j⟩ ::
            frame_entries post j := by
  refine ⟨_, second_pass_of_in_bounds ops n hb, schedule_length _ _, ?_⟩
  intro j h0 h1
  have hj : ((j.toNat : Nat) : Int) = j := by omega
  refine ⟨_, schedule_getElem? _ _ j (by omega), by rw [hj], ?_, ?_, ?_⟩
  · rw [hj]
    exact frame_entries_names ops j
  · intro hs
    rw [hj, frame_entries_names ops j]
    apply List.map_congr_left
    intro o ho
    exact strncpy_of_short _ _ (hs o (List.mem_of_mem_filter ho))
  · intro pre mid post p sf1 ef1 sf2 ef2 sv1 ev1 sv2 ev2 hops a1 a2 a3 a4
    rw [hj, hops]
    simp [frame_entries, List.filterMap_append, List.filterMap_cons, Op.vary_entry, a1, a2, a3, a4]

/-- Witness for C5: two VARY operations on the knob `k` over two frames. -/
theorem second_pass_frame_lists_witness :
    ∃ knobs, second_pass [Op.vary "k" 0 1 0 1, Op.vary "k" 1 1 5 6] 2 = some knobs ∧
      knobs.length = (2 : Int).toNat :=
  have h := second_pass_frame_lists [Op.vary "k" 0 1 0 1, Op.vary "k" 1 1 5 6] 2 (by
    intro o ho
    simp only [List.mem_cons, List.mem_singleton, List.not_mem_nil, or_false] at ho
    rcases ho with rfl | rfl <;> intro _ <;> constructor <;> decide)
  ⟨h.choose, h.choose_spec.1, h.choose_spec.2.1⟩

/-! ## Properties of the interpreter -/

theorem exec_ops_append (ext : Extern) (st : symtab) (s : frame_state) (a b : List Op) :
    exec_ops ext st s (a ++ b) = exec_ops ext st (exec_ops ext st s a) b := by
  simp [exec_ops, List.foldl_append]

theorem exec_op_depth (ext : Extern) (st : symtab) (s : frame_state) (o : Op)
    (h : 1 ≤ s.systems.length) :
    (exec_op ext st s o).systems.length =
      if o = Op.push then s.systems.length + 1
      else if o = Op.pop then (if 2 ≤ s.systems.length then s.systems.length - 1
        else s.systems.length)
      else s.systems.length := by
  obtain ⟨systems, tmp, reflect, events⟩ := s
  cases systems with
  | nil => simp at h
  | cons top rest =>
    cases o <;> simp [exec_op, apply_transform, draw_solid, copy_to_top, push]
    cases rest <;> simp [pop]

theorem exec_ops_take_succ (ext : Extern) (st : symtab) (s : frame_state) (ops : List Op)
    (k : Nat) (o : Op) (h : ops[k]? = some o) :
    exec_ops ext st s (ops.take (k + 1)) = exec_op ext st (exec_ops ext st s (ops.take k)) o := by
  rw [List.take_succ, h, exec_ops_append]
  simp [exec_ops]

theorem exec_ops_depth_pos (ext : Extern) (st : symtab) (s : frame_state) (ops : List Op)
    (h : 1 ≤ s.systems.length) : 1 ≤ (exec_ops ext st s ops).systems.length := by
  induction ops generalizing s with
  | nil => simpa [exec_ops] using h
  | cons o ops ih =>
    have : exec_ops ext st s (o :: ops) = exec_ops ext st (exec_op ext st s o) ops := by
      simp [exec_ops]
    rw [this]
    apply ih
    rw [exec_op_depth ext st s o h]
    split_ifs <;> omega

/-- C6: when the running count #PUSH - #POP is non-negative after every prefix,
the stack depth after interpreting any prefix from the single-identity stack is
1 + (#PUSH - #POP) of that prefix and is at least 1; in particular the depth
after the whole sequence is 1 + (#PUSH - #POP). -/
theorem stack_depth (ext : Extern) (st : symtab) (reflect : constants) (events : List Event)
    (ops : List Op)
    (h : ∀ k, k ≤ ops.length → (ops.take k).count Op.pop ≤ (ops.take k).count Op.push) :
    (∀ k, k ≤ ops.length →
      ((exec_ops ext st (frame_start reflect events) (ops.take k)).systems.length : Int) =
          1 + (((ops.take k).count Op.push : Int) - ((ops.take k).count Op.pop : Int)) ∧
        1 ≤ (exec_ops ext st (frame_start reflect events) (ops.take k)).systems.length) ∧
    ((exec_ops ext st (frame_start reflect events) ops).systems.length : Int) =
      1 + ((ops.count Op.push : Int) - (ops.count Op.pop : Int)) := by
  have main : ∀ k, k ≤ ops.length →
      ((exec_ops ext st (frame_start reflect events) (ops.take k)).systems.length : Int) =
          1 + (((ops.take k).count Op.push : Int) - ((ops.take k).count Op.pop : Int)) := by
    intro k
    induction k with
    | zero => intro _; simp [exec_ops, frame_start, new_stack]
    | succ k ih =>
      intro hk
      have hlt : k < ops.length := by omega
      have ho : ops[k]? = some ops[k] := List.getElem?_eq_getElem hlt
      have ih1 := ih (by omega)
      have hpos := exec_ops_depth_pos ext st (frame_start reflect events) (ops.take k)
        (by simp [frame_start, new_stack])
      have hk1 := h (k + 1) hk
      have hk0 := h k (by omega)
      rw [exec_ops_take_succ ext st _ ops k _ ho, exec_op_depth ext st _ _ hpos]
      rw [List.take_succ, ho] at hk1 ⊢
      simp only [Option.toList_some, List.count_append, List.count_singleton] at hk1 ⊢
      by_cases h1 : ops[k] = Op.push
      · simp [h1] at hk1 ⊢
        omega
      · by_cases h2 : ops[k] = Op.pop
        · simp [h2] at hk1 ⊢
          split_ifs <;> omega
        · have e1 : (ops[k] == Op.push) = false := by simpa using h1
          have e2 : (ops[k] == Op.pop) = false := by simpa using h2
          simp [h1, h2, e1, e2] at hk1 ⊢
          omega
  refine ⟨fun k hk => ⟨main k hk, ?_⟩, ?_⟩
  · exact exec_ops_depth_pos ext st _ _ (by simp [frame_start, new_stack])
  · have := main ops.length (le_refl _)
    simpa using this

/-- Witness for C6: a bracket PUSH, MOVE, POP. -/
theorem stack_depth_witness :
    ((exec_ops ⟨0, fun _ => 1, fun _ => 1, fun _ => 1, fun _ _ _ _ _ => [],
        fun _ _ _ _ _ _ => [], fun _ _ _ _ _ _ => []⟩ ⟨fun _ => 0, fun _ => white⟩
        (frame_start white []) [Op.push, Op.move (1, 2, 3) none, Op.pop]).systems.length : Int) =
      1 + (([Op.push, Op.move (1, 2, 3) none, Op.pop].count Op.push : Int) -
        ([Op.push, Op.move (1, 2, 3) none, Op.pop].count Op.pop : Int)) :=
  (stack_depth _ _ white [] [Op.push, Op.move (1, 2, 3) none, Op.pop] (by
    intro k hk
    have hk3 : k ≤ 3 := hk
    interval_cases k <;> simp)).2

/-- C7: whatever the operation sequence, the stack holds at least one entry
after every prefix of the interpretation; a POP met while the stack holds one
entry leaves the whole state unchanged, so two POPs on the initial stack leave
the single identity entry. -/
theorem pop_keeps_last_entry (ext : Extern) (st : symtab) (reflect : constants)
    (events : List Event) (ops : List Op) :
    (∀ k, 1 ≤ (exec_ops ext st (frame_start reflect events) (ops.take k)).systems.length) ∧
    (∀ (m : matrix4) (tmp : List point) (r : constants) (ev : List Event),
      exec_op ext st ⟨[m], tmp, r, ev⟩ Op.pop = ⟨[m], tmp, r, ev⟩) ∧
    (exec_ops ext st (frame_start reflect events) [Op.pop, Op.pop]).systems = [1] := by
  refine ⟨fun k => exec_ops_depth_pos ext st _ _ (by simp [frame_start, new_stack]), ?_, ?_⟩
  · intro m tmp r ev
    rfl
  · rfl

theorem make_translate_zero : make_translate 0 0 0 = 1 := by
  ext i j
  fin_cases i <;> fin_cases j <;> rfl

/-- C8: MOVE, SCALE and ROTATE keep the depth and the entries below the top,
and replace the top by top × T. Without a knob T is built from the literal
parameters; with a knob of value `k` it is built from each component times `k`
(for ROTATE, from the angle `degrees * (M_PI / 180) * k`, by the rotation builder
of the axis). MOVE(5,0,0) on the identity top gives the translation by (5,0,0),
and through a knob of value 2 the translation by (10,0,0); a following
SCALE(2,2,2) gives translate × scale, which sends (1,0,0) to (7,0,0), and not
scale × translate, which sends it to (12,0,0). -/
theorem transform_replaces_top (ext : Extern) (st : symtab) (top : matrix4) (rest : List matrix4)
    (tmp : List point) (r : constants) (ev : List Event) :
    (∀ x y z : ℚ,
      (exec_op ext st ⟨top :: rest, tmp, r, ev⟩ (Op.move (x, y, z) none)).systems =
        (top * make_translate x y z) :: rest) ∧
    (∀ (x y z : ℚ) (n : String),
      (exec_op ext st ⟨top :: rest, tmp, r, ev⟩ (Op.move (x, y, z) (some n))).systems =
        (top * make_translate (x * st.value n) (y * st.value n) (z * st.value n)) :: rest) ∧
    (∀ x y z : ℚ,
      (exec_op ext st ⟨top :: rest, tmp, r, ev⟩ (Op.scale (x, y, z) none)).systems =
        (top * make_scale x y z) :: rest) ∧
    (∀ (x y z : ℚ) (n : String),
      (exec_op ext st ⟨top :: rest, tmp, r, ev⟩ (Op.scale (x, y, z) (some n))).systems =
        (top * make_scale (x * st.value n) (y * st.value n) (z * st.value n)) :: rest) ∧
    (∀ axis degrees : ℚ,
      (exec_op ext st ⟨top :: rest, tmp, r, ev⟩ (Op.rotate axis degrees none)).systems =
        (top * (if axis = 0 then ext.make_rotX (degrees * (ext.M_PI / 180))
          else if axis = 1 then ext.make_rotY (degrees * (ext.M_PI / 180))
          else ext.make_rotZ (degrees * (ext.M_PI / 180)))) :: rest) ∧
    (∀ (axis degrees : ℚ) (n : String),
      (exec_op ext st ⟨top :: rest, tmp, r, ev⟩ (Op.rotate axis degrees (some n))).systems =
        (top * (if axis = 0 then ext.make_rotX (degrees * (ext.M_PI / 180) * st.value n)
          else if axis = 1 then ext.make_rotY (degrees * (ext.M_PI / 180) * st.value n)
          else ext.make_rotZ (degrees * (ext.M_PI / 180) * st.value n))) :: rest) ∧
    (exec_ops ext st (frame_start r ev) [Op.move (5, 0, 0) none]).systems =
      [make_translate 5 0 0] ∧
    (exec_ops ext (set_value st "k" 2) (frame_start r ev) [Op.move (5, 0, 0) (some "k")]).systems =
      [make_translate 10 0 0] ∧
    (exec_ops ext (set_value st "k" 2) (frame_start r ev) [Op.scale (2, 3, 4) (some "k")]).systems =
      [make_scale 4 6 8] ∧
    (exec_ops ext (set_value st "k" 2) (frame_start r ev) [Op.rotate 2 90 (some "k")]).systems =
      [ext.make_rotZ (90 * (ext.M_PI / 180) * 2)] ∧
    (∀ x y z : ℚ, Matrix.mulVec (make_translate 5 0 0) (mk_point x y z) = mk_point (x + 5) y z) ∧
    (exec_ops ext st (frame_start r ev) [Op.move (5, 0, 0) none, Op.scale (2, 2, 2) none]).systems =
      [make_translate 5 0 0 * make_scale 2 2 2] ∧
    Matrix.mulVec (make_translate 5 0 0 * make_scale 2 2 2) (mk_point 1 0 0) = mk_point 7 0 0 ∧
    Matrix.mulVec (make_scale 2 2 2 * make_translate 5 0 0) (mk_point 1 0 0) = mk_point 12 0 0 ∧
    make_translate 5 0 0 * make_scale 2 2 2 ≠ make_scale 2 2 2 * make_translate 5 0 0 := by
  refine ⟨?_, ?_, ?_, ?_, ?_, ?_, ?_, ?_, ?_, ?_, ?_, ?_, ?_, ?_, ?_⟩
  · intro x y z
    simp [exec_op, apply_transform, copy_to_top, matrix_mult, peek, knob_scaled]
  · intro x y z n
    simp [exec_op, apply_transform, copy_to_top, matrix_mult, peek, knob_scaled]
  · intro x y z
    simp [exec_op, apply_transform, copy_to_top, matrix_mult, peek, knob_scaled]
  · intro x y z n
    simp [exec_op, apply_transform, copy_to_top, matrix_mult, peek, knob_scaled]
  · intro axis degrees
    simp [exec_op, apply_transform, copy_to_top, matrix_mult, peek, knob_scaled]
  · intro axis degrees n
    simp [exec_op, apply_transform, copy_to_top, matrix_mult, peek, knob_scaled]
  · simp [exec_ops, exec_op, frame_start, new_stack, apply_transform, copy_to_top, matrix_mult,
      peek, knob_scaled]
  · simp [exec_ops, exec_op, frame_start, new_stack, apply_transform, copy_to_top, matrix_mult,
      peek, knob_scaled, set_value]
    norm_num
  · simp [exec_ops, exec_op, frame_start, new_stack, apply_transform, copy_to_top, matrix_mult,
      peek, knob_scaled, set_value]
    norm_num
  · simp [exec_ops, exec_op, frame_start, new_stack, apply_transform, copy_to_top, matrix_mult,
      peek, knob_scaled, set_value]
  · intro x y z
    ext i
    fin_cases i <;> simp [make_translate, mk_point, Matrix.mulVec, Matrix.dotProduct,
      Fin.sum_univ_four]
  · simp [exec_ops, exec_op, frame_start, new_stack, apply_transform, copy_to_top, matrix_mult,
      peek, knob_scaled]
  · ext i
    fin_cases i <;> simp [make_translate, make_scale, mk_point, Matrix.mulVec, Matrix.dotProduct,
      Matrix.mul_apply, Fin.sum_univ_four]
    all_goals norm_num
  · ext i
    fin_cases i <;> simp [make_translate, make_scale, mk_point, Matrix.mulVec, Matrix.dotProduct,
      Matrix.mul_apply, Fin.sum_univ_four]
    all_goals norm_num
  · intro h
    have h03 := congrFun (congrFun h 0) 3
    simp [make_translate, make_scale, Matrix.mul_apply, Fin.sum_univ_four] at h03

/-- C9: a MOVE or SCALE with components (x,y,z) that references a knob whose
value in the symbol table is `k` applies the transform built from
(k*x, k*y, k*z); when `k = 0` the MOVE leaves the stack as it was. -/
theorem knob_scales_components (ext : Extern) (st : symtab) (top : matrix4)
    (rest : List matrix4) (tmp : List point) (r : constants) (ev : List Event)
    (x y z k : ℚ) (n : String) (hk : st.value n = k) :
    (exec_op ext st ⟨top :: rest, tmp, r, ev⟩ (Op.move (x, y, z) (some n))).systems =
        (top * make_translate (k * x) (k * y) (k * z)) :: rest ∧
      (exec_op ext st ⟨top :: rest, tmp, r, ev⟩ (Op.scale (x, y, z) (some n))).systems =
        (top * make_scale (k * x) (k * y) (k * z)) :: rest ∧
      (k = 0 →
        (exec_op ext st ⟨top :: rest, tmp, r, ev⟩ (Op.move (x, y, z) (some n))).systems =
          top :: rest) := by
  subst hk
  have hm : (exec_op ext st ⟨top :: rest, tmp, r, ev⟩ (Op.move (x, y, z) (some n))).systems =
      (top * make_translate (st.value n * x) (st.value n * y) (st.value n * z)) :: rest := by
    simp [exec_op, apply_transform, copy_to_top, matrix_mult, peek, knob_scaled, mul_comm]
  refine ⟨hm, ?_, ?_⟩
  · simp [exec_op, apply_transform, copy_to_top, matrix_mult, peek, knob_scaled, mul_comm]
  · intro h0
    rw [hm, h0]
    simp [make_translate_zero]

/-- Witness for C9: a MOVE through a knob of value 0 keeps the top. -/
theorem knob_scales_components_witness :
    (exec_op ⟨0, fun _ => 1, fun _ => 1, fun _ => 1, fun _ _ _ _ _ => [],
        fun _ _ _ _ _ _ => [], fun _ _ _ _ _ _ => []⟩ ⟨fun _ => 0, fun _ => white⟩
        ⟨[make_scale 2 2 2], [], white, []⟩ (Op.move (3, 4, 5) (some "k"))).systems =
      [make_scale 2 2 2] :=
  (knob_scales_components _ ⟨fun _ => 0, fun _ => white⟩ (make_scale 2 2 2) [] [] white []
    3 4 5 0 "k" rfl).2.2 rfl

theorem exec_op_idle (ext : Extern) (st : symtab) (s : frame_state) (o : Op)
    (h : s.tmp = [] ∧ s.reflect = white) :
    (exec_op ext st s o).tmp = [] ∧ (exec_op ext st s o).reflect = white := by
  obtain ⟨systems, tmp, reflect, events⟩ := s
  obtain ⟨h1, h2⟩ := h
  simp only at h1 h2
  subst h1 h2
  cases o <;> simp [exec_op, apply_transform, draw_solid]

theorem exec_ops_idle (ext : Extern) (st : symtab) (s : frame_state) (ops : List Op)
    (h : s.tmp = [] ∧ s.reflect = white) :
    (exec_ops ext st s ops).tmp = [] ∧ (exec_ops ext st s ops).reflect = white := by
  induction ops generalizing s with
  | nil => simpa [exec_ops] using h
  | cons o ops ih =>
    have : exec_ops ext st s (o :: ops) = exec_ops ext st (exec_op ext st s o) ops := by
      simp [exec_ops]
    rw [this]
    exact ih _ (exec_op_idle ext st s o h)

/-- C10: after any operations `pre` of a frame that started with `reflect`
pointing to `white`, a SPHERE, TORUS or BOX calls `draw_polygons` once, with the
constants found in the symbol table under its own constants pointer when it has
one and with `white` otherwise; and a frame that starts with `white` ends
with `white`, so the same holds in every frame. -/
theorem primitive_constants (ext : Extern) (st : symtab) (events : List Event) (pre : List Op) :
    (∀ (c cs : Option String) (d : Triple) (r : ℚ),
      (exec_op ext st (exec_ops ext st (frame_start white events) pre) (Op.sphere c cs d r)).events =
        (exec_ops ext st (frame_start white events) pre).events ++
          [Event.draw_polygons
            (matrix_mult_points (peek (exec_ops ext st (frame_start white events) pre).systems)
              (ext.sphere_points d.1 d.2.1 d.2.2 r step_3d))
            view light ambient (own_constants st c)]) ∧
    (∀ (c cs : Option String) (d : Triple) (r0 r1 : ℚ),
      (exec_op ext st (exec_ops ext st (frame_start white events) pre)
          (Op.torus c cs d r0 r1)).events =
        (exec_ops ext st (frame_start white events) pre).events ++
          [Event.draw_polygons
            (matrix_mult_points (peek (exec_ops ext st (frame_start white events) pre).systems)
              (ext.torus_points d.1 d.2.1 d.2.2 r0 r1 step_3d))
            view light ambient (own_constants st c)]) ∧
    (∀ (c cs : Option String) (d0 d1 : Triple),
      (exec_op ext st (exec_ops ext st (frame_start white events) pre) (Op.box c cs d0 d1)).events =
        (exec_ops ext st (frame_start white events) pre).events ++
          [Event.draw_polygons
            (matrix_mult_points (peek (exec_ops ext st (frame_start white events) pre).systems)
              (ext.box_points d0.1 d0.2.1 d0.2.2 d1.1 d1.2.1 d1.2.2))
            view light ambient (own_constants st c)]) ∧
    (∀ (ops : List Op) (num_frames : Int) (name : String) (knobs : List (List vary_node))
      (f : Nat),
      match run_frame ext ops num_frames name knobs ⟨st, white, events⟩ f with
      | .ok rs => rs.reflect = white
      | .error _ => True) := by
  obtain ⟨h1, h2⟩ := exec_ops_idle ext st (frame_start white events) pre ⟨rfl, rfl⟩
  refine ⟨?_, ?_, ?_, ?_⟩
  · intro c cs d r
    cases c <;> simp [exec_op, draw_solid, own_constants, h1, h2]
  · intro c cs d r0 r1
    cases c <;> simp [exec_op, draw_solid, own_constants, Op.sphere_constants, h1, h2]
  · intro c cs d0 d1
    cases c <;> simp [exec_op, draw_solid, own_constants, Op.sphere_constants, h1, h2]
  · intro ops num_frames name knobs f
    simp only [run_frame]
    cases apply_knobs st (knobs.getD f []) with
    | none => trivial
    | some st2 =>
      simp only
      cases sprintf_frame_name name f with
      | none => trivial
      | some frame_name => exact (exec_ops_idle ext _ _ ops ⟨rfl, rfl⟩).2

/-! ## Properties of the frame driver -/

theorem set_knobs_append (st : symtab) (a b : List vary_node) :
    set_knobs st (a ++ b) = set_knobs (set_knobs st a) b := by
  simp [set_knobs, List.foldl_append]

theorem set_knobs_value (st : symtab) (vns : List vary_node) (n : String) :
    (set_knobs st vns).value n =
      (match last_entry vns n with
        | some e => e.value
        | none => st.value n) ∧ (set_knobs st vns).c = st.c := by
  induction vns using List.reverseRecOn with
  | nil => simp [set_knobs, last_entry]
  | append_singleton l a ih =>
    rw [set_knobs_append]
    have h1 : set_knobs (set_knobs st l) [a] = set_value (set_knobs st l) a.name a.value := by
      simp [set_knobs]
    rw [h1]
    refine ⟨?_, by simpa [set_value] using ih.2⟩
    by_cases hn : a.name = n
    · simp [set_value, last_entry, List.filter_append, hn]
    · have hn2 : n ≠ a.name := fun h => hn h.symm
      simp [set_value, last_entry, List.filter_append, hn, Function.update_noteq hn2]
      simpa [last_entry] using ih.1

/-- C11: once the frame driver has applied the list of frame `f` to the symbol
table, the value stored for a knob name `n` is the value of the last entry named
`n` in that list when there is one, and the value it had before the frame
otherwise; the table a frame leaves is the one it applied its list to, so it
is what the next frame starts from. With two entries for `k`, the later wins. -/
theorem frame_knob_values (ext : Extern) (st : symtab) (ops : List Op) (num_frames : Int)
    (name : String) (knobs : List (List vary_node)) (reflect : constants) (events : List Event)
    (f : Nat) (n : String) :
    (set_knobs st (knobs.getD f [])).value n =
        (match last_entry (knobs.getD f []) n with
          | some e => e.value
          | none => st.value n) ∧
      (match run_frame ext ops num_frames name knobs ⟨st, reflect, events⟩ f with
        | .ok rs => rs.st = set_knobs st (knobs.getD f [])
        | .error _ => True) ∧
      (set_knobs st [⟨"k", 1⟩, ⟨"k", 2⟩]).value "k" = 2 ∧
      (set_knobs st [⟨"k", 1⟩, ⟨"k", 2⟩]).value "j" = st.value "j" := by
  refine ⟨(set_knobs_value st _ n).1, ?_, by simp [set_knobs, set_value],
    by simp [set_knobs, set_value]⟩
  simp only [run_frame]
  cases hk : apply_knobs st (knobs.getD f []) with
  | none => trivial
  | some st2 =>
    have hst : st2 = set_knobs st (knobs.getD f []) := by
      unfold apply_knobs at hk
      split_ifs at hk
      exact (Option.some.inj hk).symm
    simp only
    cases sprintf_frame_name name f with
    | none => trivial
    | some frame_name => exact hst

theorem exec_op_events (ext : Extern) (st : symtab) (systems : List matrix4) (tmp : List point)
    (r : constants) (e : List Event) (o : Op) :
    exec_op ext st ⟨systems, tmp, r, e⟩ o =
      ⟨(exec_op ext st ⟨systems, tmp, r, []⟩ o).systems,
       (exec_op ext st ⟨systems, tmp, r, []⟩ o).tmp,
       (exec_op ext st ⟨systems, tmp, r, []⟩ o).reflect,
       e ++ (exec_op ext st ⟨systems, tmp, r, []⟩ o).events⟩ := by
  cases o <;> simp [exec_op, apply_transform, draw_solid]

theorem exec_ops_cons (ext : Extern) (st : symtab) (s : frame_state) (o : Op) (ops : List Op) :
    exec_ops ext st s (o :: ops) = exec_ops ext st (exec_op ext st s o) ops := by
  simp [exec_ops]

theorem exec_ops_events (ext : Extern) (st : symtab) (ops : List Op) :
    ∀ (systems : List matrix4) (tmp : List point) (r : constants) (e : List Event),
    exec_ops ext st ⟨systems, tmp, r, e⟩ ops =
      ⟨(exec_ops ext st ⟨systems, tmp, r, []⟩ ops).systems,
       (exec_ops ext st ⟨systems, tmp, r, []⟩ ops).tmp,
       (exec_ops ext st ⟨systems, tmp, r, []⟩ ops).reflect,
       e ++ (exec_ops ext st ⟨systems, tmp, r, []⟩ ops).events⟩ := by
  induction ops with
  | nil => intro systems tmp r e; simp [exec_ops]
  | cons o ops ih =>
    intro systems tmp r e
    rw [exec_ops_cons, exec_ops_cons, exec_op_events ext st systems tmp r e o, ih]
    conv_rhs => rw [ih]
    simp [List.append_assoc]

theorem knobs_applied_succ (st : symtab) (knobs : List (List vary_node)) (m : Nat) :
    knobs_applied st knobs (m + 1) = set_knobs (knobs_applied st knobs m) (knobs.getD m []) := by
  simp [knobs_applied, List.range_succ, List.foldl_append]

theorem sprintf_frame_name_eq (name : String) (f : Nat) :
    sprintf_frame_name name f =
      if (frame_name_text name f).length < 128 then some (frame_name_text name f) else none := by
  rfl

theorem run_frame_ok (ext : Extern) (ops : List Op) (num_frames : Int) (name : String)
    (knobs : List (List vary_node)) (st0 st : symtab) (events : List Event) (f : Nat)
    (hst : st = knobs_applied st0 knobs f)
    (hterm : (knobs.getD f []).all vary_node.terminated = true)
    (hfit : (frame_name_text name f).length < 128) :
    run_frame ext ops num_frames name knobs ⟨st, white, events⟩ f =
      .ok ⟨knobs_applied st0 knobs (f + 1), white,
        events ++ frame_calls ext st0 ops num_frames name knobs f⟩ := by
  subst hst
  have hidle := exec_ops_idle ext (knobs_applied st0 knobs (f + 1))
    (frame_start white []) ops ⟨rfl, rfl⟩
  simp only [run_frame, apply_knobs, hterm, if_true, sprintf_frame_name_eq, if_pos hfit,
    frame_start]
  rw [exec_ops_events]
  simp only [← knobs_applied_succ]
  simp only [frame_calls, op_calls, frame_start] at hidle ⊢
  rw [hidle.2]
  simp [List.append_assoc]

theorem frames_fold_ok (ext : Extern) (ops : List Op) (num_frames : Int) (name : String)
    (knobs : List (List vary_node)) (st0 : symtab) (events : List Event) (m : Nat)
    (hterm : ∀ f, f < m → (knobs.getD f []).all vary_node.terminated = true)
    (hfit : ∀ f, f < m → (frame_name_text name f).length < 128) :
    (List.range m).foldlM (run_frame ext ops num_frames name knobs) ⟨st0, white, events⟩ =
      .ok ⟨knobs_applied st0 knobs m, white,
        events ++ (List.range m).flatMap (frame_calls ext st0 ops num_frames name knobs)⟩ := by
  induction m with
  | zero => simp [knobs_applied]; rfl
  | succ m ih =>
    rw [List.range_succ, List.foldlM_append,
      ih (fun f hf => hterm f (by omega)) (fun f hf => hfit f (by omega))]
    simp only [List.foldlM_cons, List.foldlM_nil]
    rw [show (Except.ok (⟨knobs_applied st0 knobs m, white,
        events ++ (List.range m).flatMap (frame_calls ext st0 ops num_frames name knobs)⟩ :
          run_state) : Except (List Event) run_state) >>= (fun init =>
        run_frame ext ops num_frames name knobs init m >>= fun x => pure x) =
        run_frame ext ops num_frames name knobs ⟨knobs_applied st0 knobs m, white,
        events ++ (List.range m).flatMap (frame_calls ext st0 ops num_frames name knobs)⟩ m from by
      simp [bind, Except.bind, pure, Except.pure]
      cases run_frame ext ops num_frames name knobs ⟨knobs_applied st0 knobs m, white,
        events ++ (List.range m).flatMap (frame_calls ext st0 ops num_frames name knobs)⟩ m <;> rfl]
    rw [run_frame_ok ext ops num_frames name knobs st0 _ _ m rfl (hterm m (by omega))
      (hfit m (by omega))]
    simp [List.flatMap_append, List.append_assoc]

theorem exec_op_saved (ext : Extern) (st : symtab) (s : frame_state) (o : Op) :
    (exec_op ext st s o).events.filterMap Event.saved_file =
        s.events.filterMap Event.saved_file ++ (o.save_name).toList ∧
      (exec_op ext st s o).events.filter Event.is_make_animation =
        s.events.filter Event.is_make_animation := by
  cases o <;>
    simp [exec_op, apply_transform, draw_solid, Event.saved_file, Event.is_make_animation,
      Op.save_name, List.filterMap_append, List.filter_append]

theorem exec_ops_saved (ext : Extern) (st : symtab) (ops : List Op) :
    ∀ s : frame_state,
    (exec_ops ext st s ops).events.filterMap Event.saved_file =
        s.events.filterMap Event.saved_file ++ ops.filterMap Op.save_name ∧
      (exec_ops ext st s ops).events.filter Event.is_make_animation =
        s.events.filter Event.is_make_animation := by
  induction ops with
  | nil => intro s; simp [exec_ops]
  | cons o ops ih =>
    intro s
    rw [exec_ops_cons]
    obtain ⟨h1, h2⟩ := ih (exec_op ext st s o)
    obtain ⟨g1, g2⟩ := exec_op_saved ext st s o
    rw [h1, h2, g1, g2]
    cases hs : o.save_name <;> simp [List.filterMap_cons, hs]

theorem frame_calls_saved (ext : Extern) (st : symtab) (ops : List Op) (num_frames : Int)
    (name : String) (knobs : List (List vary_node)) (f : Nat) :
    (frame_calls ext st ops num_frames name knobs f).filterMap Event.saved_file =
        ops.filterMap Op.save_name ++
          (if num_frames > 1 then [frame_name_text name f] else []) ∧
      (frame_calls ext st ops num_frames name knobs f).filter Event.is_make_animation = [] := by
  obtain ⟨h1, h2⟩ := exec_ops_saved ext (knobs_applied st knobs (f + 1)) ops (frame_start white [])
  simp only [frame_start, List.filterMap_nil, List.nil_append, List.filter_nil] at h1 h2
  by_cases hn : num_frames > 1 <;> by_cases h5 : f % 5 = 0 <;>
    simp [frame_calls, op_calls, frame_start, List.filterMap_append, List.filter_append, h1, h2,
      hn, h5, Event.saved_file, Event.is_make_animation]

theorem frame_entries_terminated (ops : List Op) (j : Int)
    (hname : ∀ o ∈ ops, o.knob.length < 128) :
    (frame_entries ops j).all vary_node.terminated = true := by
  rw [List.all_eq_true]
  intro e he
  simp only [frame_entries, List.mem_filterMap] at he
  obtain ⟨o, ho, hoe⟩ := he
  have hlen := hname o ho
  cases o with
  | vary p sf ef sv ev =>
    simp only [Op.vary_entry] at hoe
    split_ifs at hoe
    have he2 := (Option.some.inj hoe).symm
    subst he2
    simp only [Op.knob] at hlen
    simp only [vary_node.terminated, decide_eq_true_eq]
    rw [strncpy_of_short p 128 (by omega)]
    exact hlen
  | _ => simp [Op.vary_entry] at hoe

theorem schedule_terminated (ops : List Op) (n : Int) (f : Nat)
    (hname : ∀ o ∈ ops, o.knob.length < 128) :
    ((schedule n.toNat (fun i => frame_entries ops (i : Int))).getD f []).all
      vary_node.terminated = true := by
  by_cases hf : f < n.toNat
  · have h1 : (schedule n.toNat (fun i => frame_entries ops (i : Int)))[f]? =
        some (frame_entries ops (f : Int)) := by
      simp [schedule, List.getElem?_range, hf]
    rw [List.getD_eq_getElem?_getD, h1]
    exact frame_entries_terminated ops _ hname
  · have h1 : (schedule n.toNat (fun i => frame_entries ops (i : Int)))[f]? = none := by
      rw [List.getElem?_eq_none_iff]
      simp [schedule]
      omega
    rw [List.getD_eq_getElem?_getD, h1]
    rfl

theorem my_main_of_ok (ext : Extern) (st : symtab) (ops : List Op) (stdout : List String)
    (n : Int) (name : String) (knobs : List (List vary_node))
    (hfp : first_pass ops = .ret stdout n name) (hsp : second_pass ops n = some knobs)
    (hterm : ∀ f, f < n.toNat → (knobs.getD f []).all vary_node.terminated = true)
    (hfit : ∀ f, f < n.toNat → (frame_name_text name f).length < 128) :
    my_main ext st ops =
      ⟨stdout.map Event.printf ++
          (List.range n.toNat).flatMap (frame_calls ext st ops n name knobs) ++
          (if n > 1 then
            [Event.printf "Generating animation...\n", Event.make_animation name] else []),
        .returned⟩ := by
  simp only [my_main, hfp, hsp]
  rw [frames_fold_ok ext ops n name knobs st _ n.toNat hterm hfit]
  by_cases hn : n > 1 <;> simp [hn]

set_option maxRecDepth 100000 in
/-- C12, as stated, fails. With `FRAMES 2` and a VARY over frames 0..5
`first_pass` returns with 2 frames, but the stores of `second_pass` leave the
two slots of `knobs`: the run faults with no frame exported and no animation
assembled. With `FRAMES 2` and a VARY over frames 0..1 whose knob name has 129
bytes, the node of frame 0 holds 128 name bytes and no terminator, and the run
faults at its lookup. -/
theorem frame_driver_calls_counterexample :
    first_pass [Op.frames 2, Op.vary "k" 0 5 0 1] =
        .ret ["Basename set to " ++ quote ++ "image" ++ quote ++ " by default...\n"] 2 "image" ∧
      (2 : Int) > 1 ∧
      second_pass [Op.frames 2, Op.vary "k" 0 5 0 1] 2 = none ∧
      (my_main sample_extern sample_symtab [Op.frames 2, Op.vary "k" 0 5 0 1]).status = .fault ∧
      ((my_main sample_extern sample_symtab [Op.frames 2, Op.vary "k" 0 5 0 1]).events.filterMap
        Event.saved_file) = [] ∧
      ((my_main sample_extern sample_symtab [Op.frames 2, Op.vary "k" 0 5 0 1]).events.filter
        Event.is_make_animation) = [] ∧
      first_pass [Op.frames 2, Op.vary long_knob 0 1 0 1] =
        .ret ["Basename set to " ++ quote ++ "image" ++ quote ++ " by default...\n"] 2 "image" ∧
      (∀ o ∈ [Op.frames 2, Op.vary long_knob 0 1 0 1], o.in_bounds 2) ∧
      (my_main sample_extern sample_symtab [Op.frames 2, Op.vary long_knob 0 1 0 1]).status =
        .fault ∧
      ((my_main sample_extern sample_symtab
        [Op.frames 2, Op.vary long_knob 0 1 0 1]).events.filterMap Event.saved_file) = [] := by
  have h1 : first_pass [Op.frames 2, Op.vary "k" 0 5 0 1] =
      .ret ["Basename set to " ++ quote ++ "image" ++ quote ++ " by default...\n"] 2 "image" := by
    simp [first_pass, first_pass_scan]
  have h2 : second_pass [Op.frames 2, Op.vary "k" 0 5 0 1] 2 = none := by
    cases h : second_pass [Op.frames 2, Op.vary "k" 0 5 0 1] 2 with
    | none => rfl
    | some knobs =>
      have hb := ((second_pass_eq_some_iff _ _ _).1 h).1 (Op.vary "k" 0 5 0 1) (by simp)
      exact absurd hb (by decide)
  have g1 : first_pass [Op.frames 2, Op.vary long_knob 0 1 0 1] =
      .ret ["Basename set to " ++ quote ++ "image" ++ quote ++ " by default...\n"] 2 "image" := by
    simp [first_pass, first_pass_scan]
  have gb : ∀ o ∈ [Op.frames 2, Op.vary long_knob 0 1 0 1], o.in_bounds 2 := by decide
  have g2 := second_pass_of_in_bounds _ _ gb
  have g3 : apply_knobs sample_symtab
      ((schedule 2 fun i =>
        frame_entries [Op.frames 2, Op.vary long_knob 0 1 0 1] (i : Int))[0]?.getD []) = none := by
    have hk : (strncpy long_knob 128).length = 128 := by decide
    simp [apply_knobs, schedule, List.range_succ, frame_entries, Op.vary_entry,
      vary_node.terminated, hk]
  refine ⟨h1, by decide, h2, ?_, ?_, ?_, g1, gb, ?_, ?_⟩
  · simp [my_main, h1, h2]
  · simp [my_main, h1, h2, Event.saved_file]
  · simp [my_main, h1, h2, Event.is_make_animation]
  · simp only [my_main, g1, g2]
    simp [List.range_succ, run_frame, g3, bind, Except.bind]
  · simp only [my_main, g1, g2]
    simp [List.range_succ, run_frame, g3, bind, Except.bind, Event.saved_file, quote]

/-- C12, amended: when `first_pass` returns with at least one frame, every VARY
range lies inside `0 .. num_frames-1`, every VARY knob name has fewer than 128
bytes and every frame name fits `frame_name`, `my_main` returns and
its calls are, frame by frame in increasing index order, those of `frame_calls`,
followed when `num_frames > 1` by the one call of `make_animation` with the
resolved name, which is the last call. The exported files are, per frame, those
of the SAVE operations followed when `num_frames > 1` by the one generated frame
name; with `num_frames = 1` no generated frame is exported and `make_animation`
is never called. -/
theorem frame_driver_calls (ext : Extern) (st : symtab) (ops : List Op) (stdout : List String)
    (n : Int) (name : String)
    (hfp : first_pass ops = .ret stdout n name) (_hn : 1 ≤ n)
    (hb : ∀ o ∈ ops, o.in_bounds n) (hname : ∀ o ∈ ops, o.knob.length < 128)
    (hfit : ∀ f, f < n.toNat → (frame_name_text name f).length < 128) :
    (my_main ext st ops).status = .returned ∧
      (∃ knobs, second_pass ops n = some knobs ∧
        (my_main ext st ops).events =
          stdout.map Event.printf ++
            (List.range n.toNat).flatMap (frame_calls ext st ops n name knobs) ++
            (if n > 1 then
              [Event.printf "Generating animation...\n", Event.make_animation name] else [])) ∧
      (my_main ext st ops).events.filterMap Event.saved_file =
        (List.range n.toNat).flatMap (fun f =>
          ops.filterMap Op.save_name ++ (if n > 1 then [frame_name_text name f] else [])) ∧
      (my_main ext st ops).events.filter Event.is_make_animation =
        (if n > 1 then [Event.make_animation name] else []) ∧
      (n > 1 → (my_main ext st ops).events.getLast? = some (Event.make_animation name)) ∧
      (n = 1 → (my_main ext st ops).events.filterMap Event.saved_file =
          ops.filterMap Op.save_name) := by
  have hsp := second_pass_of_in_bounds ops n hb
  have hm := my_main_of_ok ext st ops stdout n name _ hfp hsp
    (fun f _ => schedule_terminated ops n f hname) hfit
  have hsaved : (my_main ext st ops).events.filterMap Event.saved_file =
      (List.range n.toNat).flatMap (fun f =>
        ops.filterMap Op.save_name ++ (if n > 1 then [frame_name_text name f] else [])) := by
    rw [hm]
    simp only [List.filterMap_append, List.filterMap_flatMap]
    have e1 : (stdout.map Event.printf).filterMap Event.saved_file = [] := by
      simp [List.filterMap_map, Function.comp_def, Event.saved_file]
    have e2 : (if n > 1 then
        [Event.printf "Generating animation...\n", Event.make_animation name] else []).filterMap
          Event.saved_file = [] := by
      split_ifs <;> simp [Event.saved_file]
    rw [e1, e2]
    simp only [List.nil_append, List.append_nil]
    congr 1
    funext f
    exact (frame_calls_saved ext st ops n name _ f).1
  refine ⟨by rw [hm], ⟨_, hsp, by rw [hm]⟩, hsaved, ?_, ?_, ?_⟩
  · rw [hm]
    simp only [List.filter_append, List.filter_flatMap]
    have e1 : (stdout.map Event.printf).filter Event.is_make_animation = [] := by
      simp [List.filter_eq_nil_iff, Event.is_make_animation]
    have e3 : (List.range n.toNat).flatMap (fun f =>
        (frame_calls ext st ops n name
          (schedule n.toNat fun i => frame_entries ops (i : Int)) f).filter
            Event.is_make_animation) = [] := by
      simp [List.flatMap_eq_nil_iff, (frame_calls_saved ext st ops n name _ _).2]
    rw [e1, e3]
    split_ifs <;> simp [Event.is_make_animation]
  · intro hn
    rw [hm]
    simp [hn]
  · intro hn
    rw [hsaved]
    subst hn
    simp [List.range_succ]

/-- Witness for C12: two frames, one VARY and one SAVE. -/
theorem frame_driver_calls_witness :
    (my_main sample_extern sample_symtab
      [Op.frames 2, Op.vary "k" 0 1 0 1, Op.save "x"]).status = .returned :=
  (frame_driver_calls sample_extern sample_symtab [Op.frames 2, Op.vary "k" 0 1 0 1, Op.save "x"]
    ["Basename set to " ++ quote ++ "image" ++ quote ++ " by default...\n"] 2 "image"
    (by simp [first_pass, first_pass_scan]) (by decide) (by decide) (by decide)
    (by intro f hf; have hf2 : f < 2 := hf; interval_cases f <;> decide)).1

/-! ## Further properties of the interpreter -/

theorem exec_op_below (ext : Extern) (st : symtab) (s : frame_state) (o : Op)
    (pre rest : List matrix4) (hs : s.systems = pre ++ rest) (hpre : 1 ≤ pre.length)
    (hpop : o = Op.pop → 2 ≤ pre.length) :
    ∃ pre2, (exec_op ext st s o).systems = pre2 ++ rest ∧
      (pre2.length : Int) = (pre.length : Int) + (if o = Op.push then 1 else 0)
        - (if o = Op.pop then 1 else 0) := by
  obtain ⟨systems, tmp, reflect, events⟩ := s
  simp only at hs
  subst hs
  cases pre with
  | nil => simp at hpre
  | cons a pre1 =>
    cases o with
    | push => exact ⟨a :: a :: pre1, by simp [exec_op, push], by simp⟩
    | pop =>
      cases pre1 with
      | nil => simp at hpop
      | cons b pre2 => exact ⟨b :: pre2, by simp [exec_op, pop], by simp⟩
    | move d p => exact ⟨_ :: pre1, by simp [exec_op, apply_transform, copy_to_top]; rfl, by simp⟩
    | scale d p => exact ⟨_ :: pre1, by simp [exec_op, apply_transform, copy_to_top]; rfl, by simp⟩
    | rotate axis degrees p =>
      exact ⟨_ :: pre1, by simp [exec_op, apply_transform, copy_to_top]; rfl, by simp⟩
    | _ => exact ⟨a :: pre1, by simp [exec_op, draw_solid], by simp⟩

theorem exec_ops_below (ext : Extern) (st : symtab) (s : frame_state) (top : matrix4)
    (rest : List matrix4) (body : List Op) (hs : s.systems = top :: rest)
    (hrun : ∀ k, k ≤ body.length → (body.take k).count Op.pop ≤ (body.take k).count Op.push) :
    ∀ k, k ≤ body.length → ∃ pre, (exec_ops ext st s (body.take k)).systems = pre ++ rest ∧
      (pre.length : Int) = 1 + (((body.take k).count Op.push : Int)
        - ((body.take k).count Op.pop : Int)) := by
  intro k
  induction k with
  | zero => intro _; exact ⟨[top], by simp [exec_ops, hs], by simp⟩
  | succ k ih =>
    intro hk
    have hlt : k < body.length := by omega
    have ho : body[k]? = some body[k] := List.getElem?_eq_getElem hlt
    obtain ⟨pre, h1, h2⟩ := ih (by omega)
    have hk1 := hrun (k + 1) hk
    have hk0 := hrun k (by omega)
    rw [List.take_succ, ho] at hk1 ⊢
    simp only [Option.toList_some, List.count_append, List.count_singleton] at hk1 ⊢
    rw [exec_ops_append]
    have hstep : exec_ops ext st (exec_ops ext st s (body.take k)) [body[k]] =
        exec_op ext st (exec_ops ext st s (body.take k)) body[k] := by simp [exec_ops]
    rw [hstep]
    have hpop : body[k] = Op.pop → 2 ≤ pre.length := by
      intro hp
      simp [hp] at hk1
      omega
    obtain ⟨pre2, g1, g2⟩ := exec_op_below ext st _ body[k] pre rest h1 (by omega) hpop
    refine ⟨pre2, g1, ?_⟩
    rw [g2, h2]
    by_cases e1 : body[k] = Op.push
    · simp [e1]
      omega
    · by_cases e2 : body[k] = Op.pop
      · simp [e2]
        omega
      · have b1 : (body[k] == Op.push) = false := by simpa using e1
        have b2 : (body[k] == Op.pop) = false := by simpa using e2
        simp [e1, e2, b1, b2]

/-- C13: for a body whose running count #PUSH - #POP is non-negative after
every prefix and zero at the end, interpreting PUSH, body, POP leaves the origin
stack equal to what it was, whatever MOVE, SCALE and ROTATE the body holds. -/
theorem push_pop_bracket (ext : Extern) (st : symtab) (top : matrix4) (rest : List matrix4)
    (tmp : List point) (r : constants) (ev : List Event) (body : List Op)
    (hrun : ∀ k, k ≤ body.length → (body.take k).count Op.pop ≤ (body.take k).count Op.push)
    (hzero : body.count Op.push = body.count Op.pop) :
    (exec_ops ext st ⟨top :: rest, tmp, r, ev⟩ (Op.push :: body ++ [Op.pop])).systems =
      top :: rest := by
  have hcons : Op.push :: body ++ [Op.pop] = Op.push :: (body ++ [Op.pop]) := rfl
  rw [hcons, exec_ops_cons, exec_ops_append]
  have hpush : (exec_op ext st ⟨top :: rest, tmp, r, ev⟩ Op.push).systems = top :: top :: rest := by
    simp [exec_op, push]
  obtain ⟨pre, h1, h2⟩ := exec_ops_below ext st _ top (top :: rest) body hpush hrun
    body.length (le_refl _)
  simp only [List.take_length] at h1 h2
  have hlen : pre.length = 1 := by omega
  obtain ⟨x, rfl⟩ := List.length_eq_one.1 hlen
  generalize exec_ops ext st (exec_op ext st ⟨top :: rest, tmp, r, ev⟩ Op.push) body = s2 at h1
  obtain ⟨systems, tmp2, r2, ev2⟩ := s2
  simp only at h1
  subst h1
  simp [exec_ops, exec_op, pop]

/-- Witness for C13: a bracket holding a MOVE and a nested bracket. -/
theorem push_pop_bracket_witness :
    (exec_ops sample_extern sample_symtab ⟨[make_scale 2 2 2], [], white, []⟩
      (Op.push :: [Op.move (1, 2, 3) none, Op.push, Op.scale (2, 2, 2) none, Op.pop] ++
        [Op.pop])).systems = [make_scale 2 2 2] :=
  push_pop_bracket sample_extern sample_symtab (make_scale 2 2 2) [] [] white []
    [Op.move (1, 2, 3) none, Op.push, Op.scale (2, 2, 2) none, Op.pop]
    (by intro k hk; have hk4 : k ≤ 4 := hk; interval_cases k <;> simp) (by simp)

/-- C14: an operation other than PUSH, POP, MOVE, SCALE, ROTATE leaves the
origin stack unchanged; FRAMES, BASENAME and VARY leave the whole state as it is
(no call is made); and what the other operations do depends on the stack only
through its top. -/
theorem other_ops_keep_stack (ext : Extern) (st : symtab) (s : frame_state) :
    (∀ o : Op, o.changes_stack = false → (exec_op ext st s o).systems = s.systems) ∧
    (∀ n, exec_op ext st s (Op.frames n) = s) ∧
    (∀ p, exec_op ext st s (Op.basename p) = s) ∧
    (∀ p sf ef sv ev, exec_op ext st s (Op.vary p sf ef sv ev) = s) ∧
    (∀ (o : Op) (systems2 : List matrix4), o.changes_stack = false →
      peek systems2 = peek s.systems →
      (exec_op ext st { s with systems := systems2 } o).events = (exec_op ext st s o).events ∧
      (exec_op ext st { s with systems := systems2 } o).tmp = (exec_op ext st s o).tmp ∧
      (exec_op ext st { s with systems := systems2 } o).reflect =
        (exec_op ext st s o).reflect) := by
  refine ⟨?_, fun _ => rfl, fun _ => rfl, fun _ _ _ _ _ => rfl, ?_⟩
  · intro o ho
    cases o <;> simp [Op.changes_stack] at ho <;> simp [exec_op, draw_solid]
  · intro o systems2 ho hp
    cases o <;> simp [Op.changes_stack] at ho <;> simp [exec_op, draw_solid, hp]

/-- Witness for C14: a BOX leaves a two-entry stack as it is. -/
theorem other_ops_keep_stack_witness :
    (exec_op sample_extern sample_symtab ⟨[make_scale 2 2 2, 1], [], white, []⟩
      (Op.box none none (0, 0, 0) (1, 1, 1))).systems = [make_scale 2 2 2, 1] :=
  (other_ops_keep_stack sample_extern sample_symtab ⟨[make_scale 2 2 2, 1], [], white, []⟩).1
    (Op.box none none (0, 0, 0) (1, 1, 1)) rfl

theorem exec_op_tmp (ext : Extern) (st : symtab) (s : frame_state) (o : Op) (h : s.tmp = []) :
    (exec_op ext st s o).tmp = [] := by
  cases o <;> simp [exec_op, apply_transform, draw_solid, h]

theorem exec_ops_tmp (ext : Extern) (st : symtab) (ops : List Op) :
    ∀ s : frame_state, s.tmp = [] → (exec_ops ext st s ops).tmp = [] := by
  induction ops with
  | nil => intro s h; simpa [exec_ops] using h
  | cons o ops ih =>
    intro s h
    have : exec_ops ext st s (o :: ops) = exec_ops ext st (exec_op ext st s o) ops := by
      simp [exec_ops]
    rw [this]
    exact ih _ (exec_op_tmp ext st s o h)

/-- C15: `tmp` is empty after any operations of a frame, hence at the start of
every operation; from an empty `tmp`, a SPHERE, TORUS, BOX or LINE forwards
exactly (stack top) × (the points built for that operation) and leaves `tmp`
empty and the stack as it was. -/
theorem geometry_buffer (ext : Extern) (st : symtab) (reflect : constants)
    (events : List Event) (pre : List Op) :
    (exec_ops ext st (frame_start reflect events) pre).tmp = [] ∧
    (∀ (systems : List matrix4) (rc : constants) (ev : List Event),
      (∀ (c cs : Option String) (d : Triple) (r : ℚ), ∃ used,
        exec_op ext st ⟨systems, [], rc, ev⟩ (Op.sphere c cs d r) =
          ⟨systems, [], white, ev ++ [Event.draw_polygons
            (matrix_mult_points (peek systems) (ext.sphere_points d.1 d.2.1 d.2.2 r step_3d))
            view light ambient used]⟩) ∧
      (∀ (c cs : Option String) (d : Triple) (r0 r1 : ℚ), ∃ used,
        exec_op ext st ⟨systems, [], rc, ev⟩ (Op.torus c cs d r0 r1) =
          ⟨systems, [], white, ev ++ [Event.draw_polygons
            (matrix_mult_points (peek systems) (ext.torus_points d.1 d.2.1 d.2.2 r0 r1 step_3d))
            view light ambient used]⟩) ∧
      (∀ (c cs : Option String) (d0 d1 : Triple), ∃ used,
        exec_op ext st ⟨systems, [], rc, ev⟩ (Op.box c cs d0 d1) =
          ⟨systems, [], white, ev ++ [Event.draw_polygons
            (matrix_mult_points (peek systems)
              (ext.box_points d0.1 d0.2.1 d0.2.2 d1.1 d1.2.1 d1.2.2))
            view light ambient used]⟩) ∧
      (∀ (c cs0 cs1 : Option String) (p0 p1 : Triple),
        exec_op ext st ⟨systems, [], rc, ev⟩ (Op.line c cs0 cs1 p0 p1) =
          ⟨systems, [], rc, ev ++ [Event.draw_lines
            (matrix_mult_points (peek systems)
              [mk_point p0.1 p0.2.1 p0.2.2, mk_point p1.1 p1.2.1 p1.2.2]) g]⟩)) := by
  refine ⟨exec_ops_tmp ext st pre _ rfl, ?_⟩
  intro systems rc ev
  refine ⟨?_, ?_, ?_, ?_⟩
  · intro c cs d r
    exact ⟨_, by simp [exec_op, draw_solid]; rfl⟩
  · intro c cs d r0 r1
    exact ⟨_, by simp [exec_op, draw_solid]; rfl⟩
  · intro c cs d0 d1
    exact ⟨_, by simp [exec_op, draw_solid]; rfl⟩
  · intro c cs0 cs1 p0 p1
    simp [exec_op]

/-! ## Further properties of `second_pass` -/

/-- When `second_pass` completes, the entry of a VARY operation in a frame of its
range comes after the entries of the operations before it. -/
theorem second_pass_entry (ops pre post : List Op) (n : Int) (knobs : List (List vary_node))
    (p : String) (sf ef : Int) (sv ev : ℚ) (j : Int)
    (h : second_pass ops n = some knobs) (hops : ops = pre ++ Op.vary p sf ef sv ev :: post)
    (h1 : sf ≤ j) (h2 : j ≤ ef) :
    ∃ entries, knobs[j.toNat]? = some entries ∧
      entries[(frame_entries pre j).length]? =
        some ⟨strncpy p 128, vary_value sf ef sv ev j⟩ := by
  obtain ⟨hb, rfl⟩ := (second_pass_eq_some_iff ops n knobs).1 h
  have hin : (Op.vary p sf ef sv ev).in_bounds n := hb _ (by rw [hops]; simp)
  obtain ⟨b0, b1⟩ := hin (le_trans h1 h2)
  refine ⟨_, schedule_getElem? _ _ j (by omega), ?_⟩
  have hj : ((j.toNat : Nat) : Int) = j := by omega
  rw [hj, hops]
  simp only [frame_entries, List.filterMap_append, List.filterMap_cons, Op.vary_entry, h1, h2,
    and_self, if_true]
  rw [List.getElem?_append_right (le_refl _)]
  simp

/-- In exact arithmetic the value increases strictly with the frame index when
`start_val < end_val`. -/
theorem vary_value_lt (sf ef : Int) (sv ev : ℚ) (j1 j2 : Int) (h0 : sf ≤ j1) (h1 : j1 < j2)
    (h2 : j2 ≤ ef) (hv : sv < ev) :
    vary_value sf ef sv ev j1 < vary_value sf ef sv ev j2 := by
  unfold vary_value
  have hD : (0 : ℚ) < ((ef - sf + 1 : Int) : ℚ) := by
    have : (0 : Int) < ef - sf + 1 := by omega
    exact_mod_cast this
  have hj : ((j1 - sf : Int) : ℚ) < ((j2 - sf : Int) : ℚ) := by
    have : j1 - sf < j2 - sf := by omega
    exact_mod_cast this
  have hd : (0 : ℚ) < ev - sv := by linarith
  have hm : (ev - sv) * ((j1 - sf : Int) : ℚ) < (ev - sv) * ((j2 - sf : Int) : ℚ) :=
    mul_lt_mul_of_pos_left hj hd
  have := div_lt_div_of_pos_right hm hD
  linarith

/-- In exact arithmetic the value decreases strictly with the frame index when
`end_val < start_val`. -/
theorem vary_value_gt (sf ef : Int) (sv ev : ℚ) (j1 j2 : Int) (h0 : sf ≤ j1) (h1 : j1 < j2)
    (h2 : j2 ≤ ef) (hv : ev < sv) :
    vary_value sf ef sv ev j2 < vary_value sf ef sv ev j1 := by
  unfold vary_value
  have hD : (0 : ℚ) < ((ef - sf + 1 : Int) : ℚ) := by
    have : (0 : Int) < ef - sf + 1 := by omega
    exact_mod_cast this
  have hj : ((j1 - sf : Int) : ℚ) < ((j2 - sf : Int) : ℚ) := by
    have : j1 - sf < j2 - sf := by omega
    exact_mod_cast this
  have hd : (0 : ℚ) < sv - ev := by linarith
  have hm : (sv - ev) * ((j1 - sf : Int) : ℚ) < (sv - ev) * ((j2 - sf : Int) : ℚ) :=
    mul_lt_mul_of_pos_left hj hd
  have h3 := div_lt_div_of_pos_right hm hD
  have e1 : (ev - sv) * ((j1 - sf : Int) : ℚ) / ((ef - sf + 1 : Int) : ℚ) =
      - ((sv - ev) * ((j1 - sf : Int) : ℚ) / ((ef - sf + 1 : Int) : ℚ)) := by ring
  have e2 : (ev - sv) * ((j2 - sf : Int) : ℚ) / ((ef - sf + 1 : Int) : ℚ) =
      - ((sv - ev) * ((j2 - sf : Int) : ℚ) / ((ef - sf + 1 : Int) : ℚ)) := by ring
  rw [e1, e2]
  linarith

/-- In exact arithmetic the value at `start_frame` is `start_val`. -/
theorem vary_value_start (sf ef : Int) (sv ev : ℚ) : vary_value sf ef sv ev sf = sv := by
  simp [vary_value]

/-- In exact arithmetic the value at `end_frame` is short of `end_val` by
`(end_val - start_val) / (end_frame - start_frame + 1)`. -/
theorem vary_value_end (sf ef : Int) (sv ev : ℚ) (h : sf ≤ ef) :
    ev - vary_value sf ef sv ev ef = (ev - sv) / ((ef : ℚ) - (sf : ℚ) + 1) := by
  unfold vary_value
  have hD : ((ef : ℚ) - (sf : ℚ) + 1) ≠ 0 := by
    have : (0 : Int) < ef - sf + 1 := by omega
    have h2 : (0 : ℚ) < ((ef - sf + 1 : Int) : ℚ) := by exact_mod_cast this
    push_cast at h2
    exact ne_of_gt h2
  push_cast
  field_simp
  ring

/-- In exact arithmetic, with `FRAMES 10` and one VARY from 0 to 360 over
frames 0..9 the values stored are 0, 36, ..., 324. -/
theorem second_pass_rotation_schedule :
    second_pass [Op.frames 10, Op.vary "k" 0 9 0 360] 10 =
      some [[⟨"k", 0⟩], [⟨"k", 36⟩], [⟨"k", 72⟩], [⟨"k", 108⟩], [⟨"k", 144⟩], [⟨"k", 180⟩],
        [⟨"k", 216⟩], [⟨"k", 252⟩], [⟨"k", 288⟩], [⟨"k", 324⟩]] := by
  rw [second_pass_of_in_bounds _ _ (by decide)]
  have hk : strncpy "k" 128 = "k" := by decide
  simp [schedule, List.range_succ, frame_entries, Op.vary_entry, vary_value, hk]
  norm_num

/-- C18, as stated, fails: with 2 frames, a VARY over frames 0..2 is not
flagged; after the stores to slots 0 and 1 the loop stores to slot 2, outside
the array. -/
theorem second_pass_bounds_counterexample :
    ¬ (Op.vary "k" 0 2 0 1).in_bounds 2 ∧
      second_pass [Op.frames 2, Op.vary "k" 0 2 0 1] 2 = none ∧
      add_vary_node [[⟨"k", 0⟩], [⟨"k", 1 / 3⟩]] 2 ⟨"k", 2 / 3⟩ = none := by
  refine ⟨by decide, ?_, by simp [add_vary_node]⟩
  cases h : second_pass [Op.frames 2, Op.vary "k" 0 2 0 1] 2 with
  | none => rfl
  | some knobs =>
    have hb := ((second_pass_eq_some_iff _ _ _).1 h).1 (Op.vary "k" 0 2 0 1) (by simp)
    exact absurd hb (by decide)

/-- C18, amended: `second_pass` checks no range. It accesses a slot outside
`0 .. num_frames-1` exactly when some VARY operation with a non-empty range has
`start_frame < 0` or `end_frame ≥ num_frames`; when it completes, the schedule has
`num_frames` slots and every VARY range lies inside them. -/
theorem second_pass_bounds (ops : List Op) (n : Int) :
    (second_pass ops n = none ↔ ∃ o ∈ ops, ¬ o.in_bounds n) ∧
      (∀ knobs, second_pass ops n = some knobs →
        knobs.length = n.toNat ∧ ∀ o ∈ ops, o.in_bounds n) := by
  constructor
  · constructor
    · intro h
      by_contra hc
      push_neg at hc
      rw [second_pass_of_in_bounds ops n hc] at h
      cases h
    · rintro ⟨o, ho, hn⟩
      cases h : second_pass ops n with
      | none => rfl
      | some knobs => exact absurd (((second_pass_eq_some_iff _ _ _).1 h).1 o ho) hn
  · intro knobs h
    obtain ⟨hb, rfl⟩ := (second_pass_eq_some_iff _ _ _).1 h
    exact ⟨schedule_length _ _, hb⟩

/-- Witness for C18: a VARY over frames 0..1 of 2 frames completes. -/
theorem second_pass_bounds_witness :
    ([[⟨"k", 0⟩], [⟨"k", 5⟩]] : List (List vary_node)).length = (2 : Int).toNat ∧
      ∀ o ∈ [Op.vary "k" 0 1 0 10], o.in_bounds 2 :=
  (second_pass_bounds [Op.vary "k" 0 1 0 10] 2).2 _
    (by
      rw [second_pass_of_in_bounds _ _ (by decide)]
      have hk : strncpy "k" 128 = "k" := by decide
      simp [schedule, List.range_succ, frame_entries, Op.vary_entry, vary_value, hk]
      norm_num)

/-- C20: a VARY whose `start_frame` is greater than its `end_frame` gives no
entry to any frame: `second_pass` yields the same for the sequence with and
without that operation. -/
theorem empty_range_vary (pre post : List Op) (n : Int) (p : String) (sf ef : Int) (sv ev : ℚ)
    (h : ef < sf) :
    second_pass (pre ++ Op.vary p sf ef sv ev :: post) n = second_pass (pre ++ post) n ∧
      ∀ j : Int, (Op.vary p sf ef sv ev).vary_entry j = none := by
  have hz : (ef + 1 - sf).toNat = 0 := by omega
  have hop : ∀ k, second_pass_op k (Op.vary p sf ef sv ev) = some k := by
    intro k
    simp [second_pass_op, frame_range, hz]
  constructor
  · simp only [second_pass, List.foldlM_append, List.foldlM_cons, hop]
    simp
  · intro j
    have : ¬ (sf ≤ j ∧ j ≤ ef) := by omega
    simp [Op.vary_entry, this]

/-- Witness for C20: a VARY over the empty range 5..1. -/
theorem empty_range_vary_witness :
    second_pass ([Op.frames 2] ++ Op.vary "k" 5 1 0 10 :: [Op.push]) 2 =
        second_pass ([Op.frames 2] ++ [Op.push]) 2 ∧
      ∀ j : Int, (Op.vary "k" 5 1 0 10).vary_entry j = none :=
  empty_range_vary [Op.frames 2] [Op.push] 2 "k" 5 1 0 10 (by decide)

/-! ## Frame names -/

set_option maxRecDepth 100000 in
theorem fmt_3d_digits : ∀ f, f < 1000 → fmt_3d f =
    ⟨[Nat.digitChar (f / 100), Nat.digitChar (f / 10 % 10), Nat.digitChar (f % 10)]⟩ := by
  decide!

theorem digitChar_injective : ∀ a, a < 10 → ∀ b, b < 10 →
    Nat.digitChar a = Nat.digitChar b → a = b := by
  decide

theorem fmt_3d_injective (f1 f2 : Nat) (h1 : f1 < 1000) (h2 : f2 < 1000)
    (h : fmt_3d f1 = fmt_3d f2) : f1 = f2 := by
  rw [fmt_3d_digits f1 h1, fmt_3d_digits f2 h2] at h
  have hd := congrArg String.data h
  simp only [List.cons.injEq, and_true] at hd
  obtain ⟨a, b, c⟩ := hd
  have ha := digitChar_injective _ (by omega) _ (by omega) a
  have hb := digitChar_injective _ (by omega) _ (by omega) b
  have hc := digitChar_injective _ (by omega) _ (by omega) c
  omega

theorem frame_name_text_length (name : String) (f : Nat) (h : f < 1000) :
    (frame_name_text name f).length = name.length + 12 := by
  rw [frame_name_text, fmt_3d_digits f h]
  simp only [String.length_append]
  have e1 : "anim/".length = 5 := by decide
  have e2 : ".png".length = 4 := by decide
  have e3 : (⟨[Nat.digitChar (f / 100), Nat.digitChar (f / 10 % 10),
      Nat.digitChar (f % 10)]⟩ : String).length = 3 := rfl
  rw [e1, e2, e3]
  omega

theorem sprintf_frame_name_of_fits (name : String) (f : Nat) (hname : name.length ≤ 115)
    (hf : f < 1000) :
    sprintf_frame_name name f = some ("anim/" ++ name ++
      ⟨[Nat.digitChar (f / 100), Nat.digitChar (f / 10 % 10), Nat.digitChar (f % 10)]⟩ ++
      ".png") := by
  rw [sprintf_frame_name_eq, if_pos (by rw [frame_name_text_length name f hf]; omega),
    frame_name_text, fmt_3d_digits f hf]

theorem frame_name_text_injective (name : String) (f1 f2 : Nat) (h1 : f1 < 1000)
    (h2 : f2 < 1000) (h : frame_name_text name f1 = frame_name_text name f2) : f1 = f2 := by
  apply fmt_3d_injective f1 f2 h1 h2
  have hd := congrArg String.data h
  simp only [frame_name_text, String.data_append] at hd
  have h3 := List.append_cancel_right hd
  have h4 := List.append_cancel_left h3
  exact String.ext h4

set_option maxRecDepth 100000 in
/-- C19, at a failing input: with a resolved basename of 116 bytes the text
of frame 0 has 128 characters, which with its terminator do not fit the 128
bytes of `frame_name`; the run of `my_main` faults at `sprintf`. -/
theorem frame_name_overflow :
    first_pass [Op.frames 2, Op.basename long_basename] =
        .ret ["WARNING: Generating " ++ toString (2 : Int) ++ " identical frames...\n"] 2
          long_basename ∧
      long_basename.length = 116 ∧
      ("anim/" ++ long_basename ++ "000" ++ ".png").length = 128 ∧
      sprintf_frame_name long_basename 0 = none ∧
      (my_main sample_extern sample_symtab [Op.frames 2, Op.basename long_basename]).status =
        .fault := by
  have h1 : first_pass [Op.frames 2, Op.basename long_basename] =
      .ret ["WARNING: Generating " ++ toString (2 : Int) ++ " identical frames...\n"] 2
        long_basename := by decide
  have h2 : second_pass [Op.frames 2, Op.basename long_basename] 2 = some [[], []] := by
    simp [second_pass, second_pass_op]
  have h3 : sprintf_frame_name long_basename 0 = none := by decide
  refine ⟨h1, by decide, by decide, h3, ?_⟩
  simp [my_main, h1, h2, List.range_succ, run_frame, h3, apply_knobs, set_knobs, bind,
    Except.bind]

end Mdl
